import Mathlib

/-!
Micronsole (`micronsole.h`): a shallow embedding and its verified properties.

The embedding follows `src/micronsole.h`.

* C objects reached through pointers or arrays are lists; every read and write
  is bounds checked and an access outside the object is reported as
  `Fault.outOfBounds` (undefined behaviour in C).
* `unsigned` arithmetic is arithmetic on `Nat` modulo `2^32`; `size_t`
  arithmetic is modulo `2^64`; `int` arithmetic on glyph metrics is exact (the metrics
  are bytes of the asset, so it cannot overflow).
* `char` values are integers; function pointers are natural numbers
  (`0` is the null pointer).
* The build-time switches (`MC_DYNAMIC_ARRAYS`, `MC_MAX_*`, `MC_ASSERT`,
  `MC_OUTPUT_TEXTURE_*`) are the fields of `Config`.
* `printf` in `_mc_font_allocate` only writes to standard output and is left out.
* `malloc` of 0 bytes gives a block without slots; in `mc_set_texture_size`, where the
  pixel pointer is nullable, `realloc` of a block to 0 bytes frees it and gives the
  null pointer.
* The name slots of the static array `cmds` are separate objects in `mc_map`; the
  functions on `mc_registry` follow the same source lines with the array as the one
  block of bytes it occupies, where a write past a slot lands in the next row.
-/

namespace Micronsole

/-! ## Results of a call -/

/-- Ways in which a call ends without returning to its caller. -/
inductive Fault where
  /-- an `MC_ASSERT` whose condition is false: `assert` aborts the process -/
  | assertFailed
  /-- a read or write outside the bounds of the object: undefined behaviour -/
  | outOfBounds
  /-- a read or write through a null pointer: undefined behaviour -/
  | nullDeref
  deriving DecidableEq

/-- Outcome of a call: a fault, or the value the call returns. -/
abbrev Res (α : Type) := Except Fault α

deriving instance DecidableEq for Except

/-! ## Build-time configuration -/

/-- The four pixel layouts, `MC_OUTPUT_TEXTURE_RGB` .. `MC_OUTPUT_TEXTURE_BGRA`. -/
inductive PixelFormat where
  | RGB
  | RGBA
  | BGR
  | BGRA
  deriving DecidableEq

/-- The preprocessor configuration of one build of the header. -/
structure Config where
  /-- whether `MC_DYNAMIC_ARRAYS` is defined -/
  dynamicArrays : Bool
  MC_MAX_COMMANDS : Nat
  MC_MAX_INPUT_LENGTH : Nat
  MC_MAX_COMMAND_LENGTH : Nat
  /-- whether `MC_ASSERT(x)` checks `x` (the default `assert(x)` without
  `NDEBUG`) or expands to nothing -/
  assertsEnabled : Bool
  /-- which `MC_OUTPUT_TEXTURE_*` is defined -/
  pixelFormat : PixelFormat
  deriving DecidableEq

/-- The defaults of the header: static arrays, 128 commands, 256 input bytes,
64 bytes per command name, `assert` active. -/
def defaultConfig (fmt : PixelFormat) : Config :=
  { dynamicArrays := false, MC_MAX_COMMANDS := 128, MC_MAX_INPUT_LENGTH := 256,
    MC_MAX_COMMAND_LENGTH := 64, assertsEnabled := true, pixelFormat := fmt }

/-! ## Memory primitives -/

/-- Read of `xs[i]`. -/
def readAt {α : Type} (xs : List α) (i : Nat) : Res α :=
  match xs[i]? with
  | some v => .ok v
  | none => .error .outOfBounds

/-- Write `xs[i] = v`. -/
def writeAt {α : Type} (xs : List α) (i : Nat) (v : α) : Res (List α) :=
  if i < xs.length then .ok (xs.set i v) else .error .outOfBounds

/-- The loop `for (i = 0; i < n; i++) body`, threading the state `s`. -/
def forLoop {σ : Type} (body : Nat → σ → Res σ) : Nat → σ → Res σ
  | 0, s => .ok s
  | n + 1, s => forLoop body n s >>= body n

/-- A block of `n` bytes returned by `malloc`; its contents are indeterminate
and given by `fresh`. -/
def malloc {α : Type} (fresh : Nat → α) (n : Nat) : List α :=
  (List.range n).map fresh

/-- The bytes of the C string stored at the start of `s` (up to the first NUL). -/
def cstr (s : List Nat) : List Nat :=
  s.takeWhile (fun b => b != 0)

/-- The call `strlen(s)`: the offset of the first NUL; running off the object is a fault. -/
def strlen (s : List Nat) : Res Nat :=
  if 0 ∈ s then .ok (cstr s).length else .error .outOfBounds

/-! ## The font -/

/-- The static font variables `_mc_default_font_*`. -/
structure mc_default_font where
  is_allocated : Bool
  glyph_width : Int
  glyph_height : Int
  glyph_start : Int
  glyph_num : Int
  width : Nat
  /-- the pointer `_mc_default_font_data`; `none` is the null pointer -/
  data : Option (List Nat)
  deriving DecidableEq

/-- The font variables at program start (static storage is zeroed). -/
def mc_default_font.initial : mc_default_font :=
  { is_allocated := false, glyph_width := 0, glyph_height := 0, glyph_start := 0,
    glyph_num := 0, width := 0, data := none }

/-- The macro `_MC_UNPACK8TO32(b, c, i)`, the value assigned to the `unsigned` `b`.
The bytes are promoted to `int`; a shift that reaches the sign bit is taken on the bit
pattern (two's complement), and the conversion to `unsigned` keeps the low 32 bits. -/
def _MC_UNPACK8TO32 (c : List Nat) (i : Nat) : Res Nat := do
  let b0 ← readAt c i
  let b1 ← readAt c (i + 1)
  let b2 ← readAt c (i + 2)
  let b3 ← readAt c (i + 3)
  pure (((b0 <<< 24) ||| (b1 <<< 16) ||| (b2 <<< 8) ||| b3) % 2 ^ 32)

/-- One pass of the inner loop body of `_mc_font_allocate`:
`data[i * 8 + j] = (bin[i + 13] >> j) & 1`. -/
def unpackBit (bin : List Nat) (i j : Nat) (data : List Nat) : Res (List Nat) := do
  let b ← readAt bin ((i + 13) % 2 ^ 32)
  writeAt data ((i * 8 + j) % 2 ^ 32) ((b >>> j) &&& 1)

/-- The function `_mc_font_allocate`, on the asset `bin` (`_mc_default_font_bin`). -/
def _mc_font_allocate (bin : List Nat) (fresh : Nat → Nat) (st : mc_default_font) :
    Res (Int × mc_default_font) :=
  if st.is_allocated then pure (0, st) else do
  let tag ← readAt bin 0
  if tag ≠ 1 then pure (-1, st) else do
  let gw ← readAt bin 1
  let gh ← readAt bin 2
  let gs ← readAt bin 3
  let gn ← readAt bin 4
  let w ← _MC_UNPACK8TO32 bin 5
  let totallen ← _MC_UNPACK8TO32 bin 9
  let data0 := malloc fresh totallen
  let len := totallen >>> 3
  let reminder := (totallen % 8) % 256
  let data1 ← forLoop (fun i d => forLoop (fun j d => unpackBit bin i j d) 8 d) len data0
  let data2 ← (if reminder > 0 then forLoop (fun j d => unpackBit bin len j d) reminder data1
               else pure data1)
  pure (0, { is_allocated := true, glyph_width := gw, glyph_height := gh, glyph_start := gs,
             glyph_num := gn, width := w, data := some data2 })

/-! ## The built-in font asset -/

/-- Bytes 0 to 12 of `_mc_default_font_bin`: the header. -/
def fontHeader : List Nat := [1, 12, 15, 33, 128, 0, 0, 6, 0, 0, 0, 90, 0]

/-- Bytes 13 to 268 of `_mc_default_font_bin`. -/
def fontPayload0 : List Nat := [
  0, 0, 0, 0, 0, 0, 0, 0, 0, 0, 0, 0, 0, 0, 0, 0,
  0, 0, 0, 0, 0, 0, 0, 0, 0, 0, 0, 0, 0, 0, 0, 0,
  0, 0, 0, 0, 0, 0, 0, 0, 0, 0, 0, 0, 0, 0, 0, 0,
  0, 0, 0, 0, 0, 0, 0, 0, 0, 0, 0, 0, 0, 0, 0, 0,
  0, 0, 0, 0, 0, 0, 0, 0, 0, 0, 0, 0, 0, 0, 0, 0,
  0, 0, 0, 0, 0, 0, 0, 0, 0, 0, 0, 0, 0, 0, 0, 0,
  0, 0, 0, 0, 0, 0, 0, 0, 0, 0, 0, 0, 0, 0, 0, 0,
  0, 0, 0, 0, 0, 0, 0, 0, 0, 0, 0, 0, 0, 0, 0, 0,
  0, 0, 0, 0, 0, 0, 0, 0, 0, 0, 0, 0, 0, 0, 0, 0,
  0, 0, 0, 0, 0, 0, 0, 0, 0, 0, 0, 0, 0, 0, 0, 0,
  0, 0, 0, 0, 0, 0, 0, 0, 0, 0, 0, 0, 0, 0, 0, 0,
  0, 0, 0, 0, 0, 0, 0, 0, 0, 0, 0, 0, 0, 0, 0, 0,
  0, 0, 0, 0, 0, 0, 0, 0, 0, 0, 0, 0, 0, 0, 0, 0,
  0, 0, 0, 0, 0, 0, 0, 0, 0, 0, 0, 0, 0, 0, 0, 0,
  0, 0, 0, 0, 0, 0, 0, 0, 0, 0, 0, 0, 0, 0, 0, 0,
  0, 0, 0, 0, 0, 0, 0, 0, 0, 0, 0, 0, 0, 0, 0, 0]

/-- Bytes 269 to 524 of `_mc_default_font_bin`. -/
def fontPayload1 : List Nat := [
  0, 0, 0, 0, 0, 0, 0, 0, 0, 0, 0, 0, 0, 0, 0, 0,
  0, 0, 0, 0, 0, 0, 0, 0, 0, 0, 0, 0, 0, 0, 0, 0,
  0, 0, 0, 0, 0, 0, 0, 0, 0, 0, 0, 0, 0, 0, 0, 0,
  0, 0, 0, 0, 0, 0, 0, 0, 0, 0, 0, 0, 0, 0, 0, 0,
  0, 0, 0, 0, 0, 0, 0, 0, 0, 0, 0, 0, 0, 14, 224, 0,
  14, 224, 0, 14, 224, 0, 14, 224, 0, 14, 224, 0, 14, 224, 0, 14,
  224, 0, 14, 224, 0, 14, 224, 0, 14, 224, 0, 14, 224, 0, 14, 224,
  0, 14, 224, 0, 14, 224, 0, 14, 224, 0, 14, 224, 0, 14, 224, 0,
  0, 0, 0, 0, 0, 0, 0, 0, 0, 0, 0, 0, 0, 0, 0, 0,
  0, 0, 0, 0, 0, 0, 0, 0, 0, 0, 0, 0, 0, 0, 0, 0,
  0, 0, 0, 0, 0, 0, 0, 0, 0, 0, 0, 0, 0, 0, 0, 0,
  0, 0, 0, 0, 0, 0, 0, 0, 0, 0, 0, 0, 0, 0, 0, 0,
  0, 0, 0, 0, 0, 0, 0, 0, 0, 0, 0, 0, 0, 0, 0, 0,
  0, 0, 0, 0, 0, 0, 0, 0, 0, 0, 0, 0, 0, 0, 0, 0,
  0, 0, 0, 0, 0, 0, 0, 0, 0, 0, 0, 0, 0, 0, 0, 0,
  0, 0, 0, 0, 0, 0, 0, 0, 0, 0, 0, 0, 0, 0, 0, 0]

/-- Bytes 525 to 780 of `_mc_default_font_bin`. -/
def fontPayload2 : List Nat := [
  0, 0, 0, 0, 0, 0, 0, 0, 0, 0, 0, 0, 0, 16, 0, 1,
  16, 0, 1, 16, 0, 1, 16, 0, 1, 16, 0, 1, 16, 0, 1, 16,
  0, 1, 16, 0, 1, 16, 0, 1, 16, 0, 1, 16, 0, 1, 16, 0,
  1, 16, 0, 1, 16, 0, 1, 16, 0, 1, 16, 0, 1, 16, 0, 1,
  0, 0, 0, 0, 64, 0, 0, 0, 0, 0, 0, 0, 0, 0, 0, 0,
  0, 0, 0, 0, 0, 0, 0, 0, 0, 0, 0, 0, 0, 0, 0, 0,
  0, 0, 0, 0, 0, 0, 0, 0, 0, 0, 0, 0, 0, 0, 0, 0,
  0, 0, 0, 0, 0, 0, 0, 0, 0, 0, 0, 0, 0, 0, 0, 0,
  0, 0, 0, 0, 0, 0, 0, 0, 0, 0, 0, 0, 0, 0, 0, 0,
  0, 0, 0, 0, 0, 0, 0, 0, 0, 0, 0, 0, 0, 0, 16, 0,
  0, 0, 0, 0, 0, 0, 0, 0, 0, 0, 0, 0, 0, 0, 0, 0,
  0, 0, 0, 0, 0, 0, 0, 0, 0, 0, 0, 0, 0, 0, 0, 0,
  0, 0, 0, 0, 0, 0, 0, 24, 0, 0, 3, 0, 0, 16, 0, 1,
  16, 0, 1, 16, 0, 1, 16, 0, 1, 16, 0, 1, 16, 0, 1, 16,
  0, 1, 16, 0, 1, 16, 0, 1, 16, 0, 1, 16, 0, 1, 16, 0,
  1, 16, 0, 1, 16, 0, 1, 16, 0, 1, 16, 0, 1, 16, 0, 1]

/-- Bytes 781 to 1036 of `_mc_default_font_bin`. -/
def fontPayload3 : List Nat := [
  1, 80, 0, 40, 224, 1, 38, 192, 1, 2, 64, 0, 1, 80, 1, 0,
  0, 0, 0, 0, 0, 8, 192, 0, 2, 240, 0, 15, 64, 0, 31, 192,
  0, 31, 224, 0, 14, 0, 0, 0, 0, 0, 0, 0, 0, 15, 128, 7,
  8, 240, 0, 28, 240, 0, 31, 240, 1, 28, 112, 7, 7, 224, 0, 119,
  112, 0, 195, 48, 7, 12, 240, 0, 12, 240, 0, 30, 240, 1, 119, 112,
  7, 7, 119, 7, 119, 240, 1, 7, 16, 0, 7, 128, 0, 0, 32, 0,
  0, 48, 0, 0, 192, 0, 0, 192, 0, 0, 48, 0, 2, 32, 0, 3,
  16, 0, 0, 0, 0, 0, 0, 0, 0, 0, 0, 0, 0, 0, 0, 0,
  0, 0, 0, 0, 0, 0, 0, 4, 16, 0, 4, 0, 0, 16, 0, 1,
  16, 0, 1, 16, 0, 1, 16, 0, 1, 16, 0, 1, 16, 0, 1, 16,
  0, 1, 16, 0, 1, 16, 0, 1, 16, 0, 1, 16, 0, 1, 16, 0,
  1, 16, 0, 1, 16, 0, 1, 16, 0, 1, 16, 0, 1, 16, 0, 1,
  1, 80, 0, 40, 80, 1, 41, 32, 1, 2, 32, 0, 2, 224, 0, 0,
  0, 0, 0, 0, 0, 8, 32, 1, 3, 0, 1, 17, 64, 0, 1, 32,
  0, 16, 16, 1, 17, 0, 0, 0, 0, 0, 0, 0, 0, 16, 64, 8,
  8, 32, 1, 18, 32, 1, 18, 32, 1, 18, 32, 2, 2, 128, 0, 34]

/-- Bytes 1037 to 1292 of `_mc_default_font_bin`. -/
def fontPayload4 : List Nat := [
  32, 0, 102, 96, 2, 18, 32, 1, 18, 32, 1, 17, 80, 1, 34, 32,
  2, 2, 34, 2, 34, 16, 1, 1, 16, 0, 4, 64, 1, 0, 0, 0,
  0, 32, 0, 0, 128, 0, 0, 32, 0, 0, 32, 0, 0, 0, 0, 2,
  16, 0, 0, 0, 0, 0, 0, 0, 0, 0, 0, 0, 32, 0, 0, 0,
  0, 0, 0, 0, 0, 0, 0, 4, 16, 0, 4, 0, 0, 16, 0, 1,
  16, 0, 1, 16, 0, 1, 16, 0, 1, 16, 0, 1, 16, 0, 1, 16,
  0, 1, 16, 0, 1, 16, 0, 1, 16, 0, 1, 16, 0, 1, 16, 0,
  1, 16, 0, 1, 16, 0, 1, 16, 0, 1, 16, 0, 1, 16, 0, 1,
  1, 0, 0, 126, 80, 0, 25, 32, 0, 0, 16, 0, 4, 224, 0, 4,
  0, 0, 0, 0, 0, 4, 16, 2, 2, 0, 1, 16, 32, 0, 1, 16,
  0, 8, 16, 1, 17, 0, 0, 0, 0, 6, 0, 96, 0, 16, 32, 23,
  20, 32, 1, 1, 32, 2, 2, 32, 0, 1, 32, 2, 2, 128, 0, 18,
  32, 0, 102, 96, 2, 33, 32, 1, 33, 32, 1, 1, 64, 0, 34, 32,
  2, 34, 66, 1, 20, 128, 0, 1, 32, 0, 4, 32, 2, 0, 0, 0,
  7, 224, 0, 14, 224, 0, 6, 112, 0, 22, 224, 0, 3, 48, 0, 18,
  16, 0, 109, 208, 0, 6, 208, 0, 22, 208, 0, 14, 112, 0, 27, 112]

/-- Bytes 1293 to 1548 of `_mc_default_font_bin`. -/
def fontPayload5 : List Nat := [
  7, 199, 49, 3, 51, 240, 0, 4, 16, 0, 4, 0, 0, 16, 0, 1,
  16, 0, 1, 16, 0, 1, 16, 0, 1, 16, 0, 1, 16, 0, 1, 16,
  0, 1, 16, 0, 1, 16, 0, 1, 16, 0, 1, 16, 0, 1, 16, 0,
  1, 16, 0, 1, 16, 0, 1, 16, 0, 1, 16, 0, 1, 16, 0, 1,
  1, 0, 0, 20, 224, 0, 22, 96, 14, 0, 16, 0, 4, 80, 1, 4,
  0, 0, 0, 0, 0, 4, 16, 2, 2, 128, 0, 12, 160, 0, 15, 240,
  0, 8, 224, 0, 17, 16, 0, 1, 128, 1, 126, 128, 1, 8, 144, 20,
  20, 224, 1, 1, 32, 2, 14, 224, 0, 1, 224, 3, 2, 128, 0, 14,
  32, 0, 90, 160, 2, 33, 224, 0, 33, 224, 0, 14, 64, 0, 34, 32,
  2, 34, 130, 0, 8, 64, 0, 1, 32, 0, 4, 0, 0, 0, 0, 0,
  8, 32, 1, 9, 144, 0, 9, 32, 0, 9, 32, 1, 2, 32, 0, 10,
  16, 0, 146, 32, 1, 9, 32, 1, 9, 160, 0, 1, 32, 0, 18, 32,
  2, 130, 32, 1, 18, 144, 0, 4, 16, 0, 4, 96, 0, 16, 0, 1,
  16, 0, 1, 16, 0, 1, 16, 0, 1, 16, 0, 1, 16, 0, 1, 16,
  0, 1, 16, 0, 1, 16, 0, 1, 16, 0, 1, 16, 0, 1, 16, 0,
  1, 16, 0, 1, 16, 0, 1, 16, 0, 1, 16, 0, 1, 16, 0, 1]

/-- Bytes 1549 to 1804 of `_mc_default_font_bin`. -/
def fontPayload6 : List Nat := [
  1, 0, 0, 20, 64, 1, 104, 144, 4, 0, 16, 0, 4, 0, 0, 31,
  0, 0, 15, 0, 0, 2, 16, 2, 2, 64, 0, 16, 144, 0, 16, 16,
  1, 4, 16, 1, 30, 0, 0, 0, 96, 0, 0, 0, 6, 4, 80, 20,
  28, 32, 2, 1, 32, 2, 2, 32, 0, 25, 32, 2, 2, 128, 0, 10,
  32, 0, 90, 160, 2, 33, 32, 0, 33, 160, 0, 16, 64, 0, 34, 64,
  1, 84, 129, 0, 8, 32, 0, 1, 64, 0, 4, 0, 0, 0, 0, 0,
  14, 32, 1, 1, 144, 0, 15, 32, 0, 9, 32, 1, 2, 32, 0, 6,
  16, 0, 146, 32, 1, 9, 32, 1, 9, 32, 0, 6, 32, 0, 18, 32,
  2, 146, 192, 0, 18, 64, 0, 3, 16, 0, 24, 144, 4, 16, 0, 1,
  16, 0, 1, 16, 0, 1, 16, 0, 1, 16, 0, 1, 16, 0, 1, 16,
  0, 1, 16, 0, 1, 16, 0, 1, 16, 0, 1, 16, 0, 1, 16, 0,
  1, 16, 0, 1, 16, 0, 1, 16, 0, 1, 16, 0, 1, 16, 0, 1,
  1, 0, 0, 63, 64, 1, 152, 16, 5, 0, 16, 0, 4, 0, 0, 4,
  0, 0, 0, 0, 0, 2, 16, 2, 2, 32, 0, 16, 240, 1, 16, 16,
  1, 4, 16, 1, 16, 0, 0, 0, 128, 1, 126, 128, 1, 2, 80, 18,
  34, 32, 2, 1, 32, 2, 2, 32, 0, 17, 32, 2, 2, 128, 0, 18]

/-- Bytes 1805 to 2060 of `_mc_default_font_bin`. -/
def fontPayload7 : List Nat := [
  32, 0, 66, 32, 3, 33, 32, 0, 41, 32, 1, 16, 64, 0, 34, 64,
  1, 84, 65, 1, 8, 16, 0, 1, 64, 0, 4, 0, 0, 0, 0, 0,
  9, 32, 1, 1, 144, 0, 1, 32, 0, 9, 32, 1, 2, 32, 0, 10,
  16, 0, 146, 32, 1, 9, 32, 1, 9, 32, 0, 8, 32, 0, 18, 64,
  1, 84, 192, 0, 12, 32, 0, 4, 16, 0, 4, 0, 3, 16, 0, 1,
  16, 0, 1, 16, 0, 1, 16, 0, 1, 16, 0, 1, 16, 0, 1, 16,
  0, 1, 16, 0, 1, 16, 0, 1, 16, 0, 1, 16, 0, 1, 16, 0,
  1, 16, 0, 1, 16, 0, 1, 16, 0, 1, 16, 0, 1, 16, 0, 1,
  0, 0, 0, 10, 80, 1, 148, 16, 2, 0, 32, 0, 2, 0, 0, 4,
  0, 0, 0, 0, 0, 1, 32, 1, 2, 16, 1, 17, 128, 0, 17, 16,
  1, 2, 16, 1, 8, 0, 0, 0, 0, 6, 0, 96, 0, 0, 144, 15,
  34, 32, 2, 18, 32, 1, 18, 32, 0, 18, 32, 2, 2, 144, 0, 34,
  32, 1, 66, 32, 3, 18, 32, 0, 18, 32, 1, 17, 64, 0, 34, 128,
  0, 136, 32, 2, 8, 16, 1, 1, 128, 0, 4, 0, 0, 0, 0, 0,
  9, 32, 1, 9, 144, 0, 9, 32, 0, 9, 32, 1, 2, 32, 0, 10,
  16, 0, 146, 32, 1, 9, 32, 1, 9, 32, 0, 9, 32, 0, 18, 64]

/-- Bytes 2061 to 2316 of `_mc_default_font_bin`. -/
def fontPayload8 : List Nat := [
  1, 84, 32, 1, 12, 144, 0, 4, 16, 0, 4, 0, 0, 16, 0, 1,
  16, 0, 1, 16, 0, 1, 16, 0, 1, 16, 0, 1, 16, 0, 1, 16,
  0, 1, 16, 0, 1, 16, 0, 1, 16, 0, 1, 16, 0, 1, 16, 0,
  1, 16, 0, 1, 16, 0, 1, 16, 0, 1, 16, 0, 1, 16, 0, 1,
  1, 0, 0, 10, 240, 0, 100, 224, 13, 0, 64, 0, 1, 0, 0, 0,
  16, 0, 0, 16, 0, 1, 192, 0, 7, 240, 1, 15, 128, 0, 15, 224,
  0, 2, 224, 0, 7, 16, 0, 1, 0, 0, 0, 0, 0, 2, 32, 32,
  119, 240, 1, 28, 240, 0, 31, 112, 0, 28, 112, 7, 7, 96, 0, 119,
  240, 1, 231, 112, 2, 12, 112, 0, 108, 112, 3, 15, 224, 0, 28, 128,
  0, 136, 112, 7, 28, 240, 1, 7, 128, 0, 7, 0, 0, 0, 0, 0,
  30, 208, 0, 14, 96, 1, 14, 112, 0, 14, 112, 3, 7, 32, 0, 23,
  96, 0, 183, 113, 3, 6, 224, 0, 14, 112, 0, 7, 64, 0, 44, 128,
  0, 40, 48, 3, 8, 240, 0, 4, 16, 0, 4, 0, 0, 30, 224, 1,
  30, 224, 1, 30, 224, 1, 30, 224, 1, 30, 224, 1, 30, 224, 1, 30,
  224, 1, 30, 224, 1, 30, 224, 1, 30, 224, 1, 30, 224, 1, 30, 224,
  1, 30, 224, 1, 30, 224, 1, 30, 224, 1, 30, 224, 1, 30, 224, 1]

/-- Bytes 2317 to 2572 of `_mc_default_font_bin`. -/
def fontPayload9 : List Nat := [
  0, 0, 0, 0, 64, 0, 0, 0, 0, 0, 0, 0, 0, 0, 0, 0,
  16, 0, 0, 0, 0, 0, 0, 0, 0, 0, 0, 0, 0, 0, 0, 0,
  0, 0, 0, 0, 0, 0, 0, 1, 0, 0, 0, 0, 0, 0, 192, 31,
  0, 0, 0, 0, 0, 0, 0, 0, 0, 0, 0, 0, 0, 0, 0, 0,
  0, 0, 0, 0, 0, 0, 0, 0, 0, 0, 0, 0, 0, 0, 0, 0,
  0, 0, 0, 0, 0, 0, 0, 0, 0, 0, 0, 0, 0, 127, 0, 0,
  0, 0, 0, 0, 0, 0, 0, 0, 0, 8, 0, 0, 0, 32, 0, 0,
  0, 0, 0, 0, 0, 0, 32, 0, 8, 0, 0, 0, 0, 0, 0, 0,
  0, 0, 0, 0, 4, 0, 0, 4, 0, 0, 4, 0, 0, 0, 0, 0,
  0, 0, 0, 0, 0, 0, 0, 0, 0, 0, 0, 0, 0, 0, 0, 0,
  0, 0, 0, 0, 0, 0, 0, 0, 0, 0, 0, 0, 0, 0, 0, 0,
  0, 0, 0, 0, 0, 0, 0, 0, 0, 0, 0, 0, 0, 0, 0, 0,
  0, 0, 0, 0, 0, 0, 0, 0, 0, 0, 0, 0, 0, 0, 0, 0,
  8, 0, 0, 0, 0, 0, 0, 0, 0, 0, 0, 0, 0, 0, 0, 0,
  0, 0, 0, 0, 0, 0, 128, 0, 0, 0, 0, 0, 0, 0, 0, 0,
  0, 0, 0, 0, 0, 0, 0, 0, 0, 0, 0, 0, 0, 0, 0, 0]

/-- Bytes 2573 to 2828 of `_mc_default_font_bin`. -/
def fontPayload10 : List Nat := [
  0, 0, 0, 0, 0, 0, 0, 0, 0, 0, 0, 0, 0, 0, 0, 0,
  0, 0, 0, 0, 0, 0, 0, 0, 0, 0, 0, 0, 0, 0, 0, 0,
  0, 0, 0, 0, 0, 0, 0, 0, 0, 7, 0, 0, 0, 24, 0, 0,
  0, 0, 0, 0, 0, 0, 112, 0, 28, 0, 0, 0, 0, 0, 0, 0,
  0, 0, 0, 0, 6, 0, 0, 24, 0, 0, 3, 0, 0, 0, 0, 0,
  0, 0, 0, 0, 0, 0, 0, 0, 0, 0, 0, 0, 0, 0, 0, 0,
  0, 0, 0, 0, 0, 0, 0, 0, 0, 0, 0, 0, 0, 0, 0, 0,
  0, 0, 0, 0, 0, 0, 0, 0, 0, 0, 0, 0, 0, 0, 0, 0,
  0, 0, 0, 0, 0, 0, 0, 0, 0, 0, 0, 0, 0, 0, 0, 0,
  0, 0, 0, 0, 0, 0, 0, 0, 0, 0, 0, 0, 0, 0, 0, 0,
  0, 0, 0, 0, 0, 0, 0, 0, 0, 0, 0, 0, 0, 0, 0, 0,
  0, 0, 0, 0, 0, 0, 0, 0, 0, 0, 0, 0, 0, 0, 0, 0,
  0, 0, 0, 0, 0, 0, 0, 0, 0, 0, 0, 0, 0, 0, 0, 0,
  0, 0, 0, 0, 0, 0, 0, 0, 0, 0, 0, 0, 0, 0, 0, 0,
  0, 0, 0, 0, 0, 0, 0, 0, 0, 0, 0, 0, 0, 0, 0, 0,
  0, 0, 0, 0, 0, 0, 0, 0, 0, 0, 0, 0, 0, 0, 0, 0]

/-- Bytes 2829 to 2892 of `_mc_default_font_bin`. -/
def fontPayload11 : List Nat := [
  0, 0, 0, 0, 0, 0, 0, 0, 0, 0, 0, 0, 0, 0, 0, 0,
  0, 0, 0, 0, 0, 0, 0, 0, 0, 0, 0, 0, 0, 0, 0, 0,
  0, 0, 0, 0, 0, 0, 0, 0, 0, 0, 0, 0, 0, 0, 0, 0,
  0, 0, 0, 0, 0, 0, 0, 0, 0, 0, 0, 0, 0, 0, 0, 0]

/-- The bytes of `_mc_default_font_bin` from offset 13 on: the packed payload. -/
def fontPayload : List Nat :=
  fontPayload0 ++ fontPayload1 ++ fontPayload2 ++ fontPayload3 ++ fontPayload4 ++ fontPayload5 ++
  fontPayload6 ++ fontPayload7 ++ fontPayload8 ++ fontPayload9 ++ fontPayload10 ++ fontPayload11

/-- The array `_mc_default_font_bin` (2893 bytes, written here in pieces). -/
def _mc_default_font_bin : List Nat := fontHeader ++ fontPayload

/-! ## The console -/

/-- The struct `mc_pixel`; `a` is present in the RGBA and BGRA layouts only. -/
structure mc_pixel where
  r : Nat
  g : Nat
  b : Nat
  a : Option Nat
  deriving DecidableEq

/-- The compound literal `(struct mc_pixel){bit, bit, bit}` (with a fourth `bit`
in the RGBA and BGRA layouts): the initialisers fill the members in declaration
order, which gives every member the same value in all four layouts. -/
def grayPixel (fmt : PixelFormat) (bit : Nat) : mc_pixel :=
  match fmt with
  | .RGB => { r := bit, g := bit, b := bit, a := none }
  | .BGR => { b := bit, g := bit, r := bit, a := none }
  | .RGBA => { r := bit, g := bit, b := bit, a := some bit }
  | .BGRA => { b := bit, g := bit, r := bit, a := some bit }

/-- The number of bytes of one pixel, `sizeof(struct mc_pixel)`. -/
def sizeofPixel (fmt : PixelFormat) : Nat :=
  match fmt with
  | .RGB => 3
  | .BGR => 3
  | .RGBA => 4
  | .BGRA => 4

/-- The keys of `enum mc_keys`. -/
inductive mc_keys where
  | MC_KEY_LEFT
  | MC_KEY_RIGHT
  | MC_KEY_UP
  | MC_KEY_DOWN
  | MC_KEY_BACKSPACE
  deriving DecidableEq

/-- The struct `mc_console`. Arrays and heap blocks are lists; a pointer that
may be null is an `Option`. In a build with static arrays `instr` has
`MC_MAX_INPUT_LENGTH` bytes, `cmdfuncs` has `MC_MAX_COMMANDS` entries and `cmds`
has `MC_MAX_COMMANDS` slots of `MC_MAX_COMMAND_LENGTH` bytes; with
`MC_DYNAMIC_ARRAYS` they are the blocks the pointers refer to. -/
structure mc_console where
  outstr : Option (List Nat)
  outlen : Nat
  outmaxlen : Nat
  outwidth : Nat
  outheight : Nat
  outupdate : Bool
  instr : List Nat
  inpos : Nat
  insert : Bool
  cmdfuncs : List Nat
  cmds : List (List Nat)
  ncmds : Nat
  width : Nat
  height : Nat
  pixels : Option (List mc_pixel)
  deriving DecidableEq

/-- The function `mc_create`: the struct is zeroed, then the buffers are set up. -/
def mc_create (cfg : Config) : Int × mc_console :=
  let zeroed : mc_console :=
    { outstr := none, outlen := 0, outmaxlen := 0, outwidth := 0, outheight := 0,
      outupdate := false, instr := [], inpos := 0, insert := false, cmdfuncs := [],
      cmds := [], ncmds := 0, width := 0, height := 0, pixels := none }
  if cfg.dynamicArrays then
    (0, { zeroed with instr := [0], outstr := some [0] })
  else
    (0, { zeroed with
            instr := List.replicate cfg.MC_MAX_INPUT_LENGTH 0
            cmdfuncs := List.replicate cfg.MC_MAX_COMMANDS 0
            cmds := List.replicate cfg.MC_MAX_COMMANDS
              (List.replicate cfg.MC_MAX_COMMAND_LENGTH 0) })

/-- The call `realloc(p, n * sizeof *p)`: a block of `n` entries that keeps the old
entries it has room for; entries beyond the old block are indeterminate, here `fill`. -/
def realloc {α : Type} (xs : List α) (n : Nat) (fill : α) : List α :=
  xs.take n ++ List.replicate (n - xs.length) fill

/-- The call `strcpy(dst, src)`: the bytes of `src` up to and including its NUL
are written at the start of `dst`. -/
def strcpy (dst src : List Nat) : Res (List Nat) := do
  let n ← strlen src
  if n + 1 ≤ dst.length then pure (src.take (n + 1) ++ dst.drop (n + 1))
  else .error .outOfBounds

/-- The call `memmove(buf + dst, buf + src, n)` inside the one object `buf`. -/
def memmove (buf : List Nat) (dst src n : Nat) : Res (List Nat) :=
  if src + n ≤ buf.length ∧ dst + n ≤ buf.length then
    pure (buf.take dst ++ (buf.drop src).take n ++ buf.drop (dst + n))
  else .error .outOfBounds

/-- The function `mc_map`. -/
def mc_map (cfg : Config) (con : mc_console) (cmd : List Nat) (func : Nat) :
    Res (Int × mc_console) :=
  if cfg.dynamicArrays then do
    let con := { con with cmdfuncs := realloc con.cmdfuncs con.ncmds 0 }
    let con := { con with cmds := realloc con.cmds con.ncmds [] }
    let funcs ← writeAt con.cmdfuncs con.ncmds func
    let con := { con with cmdfuncs := funcs }
    let n ← strlen cmd
    let names ← writeAt con.cmds con.ncmds (malloc (fun _ => 0) n)
    let con := { con with cmds := names }
    let slot ← readAt con.cmds con.ncmds
    let slot ← strcpy slot cmd
    let names ← writeAt con.cmds con.ncmds slot
    let con := { con with cmds := names }
    pure (0, { con with ncmds := (con.ncmds + 1) % 2 ^ 32 })
  else
    if cfg.assertsEnabled ∧ ¬ con.ncmds < cfg.MC_MAX_COMMANDS then .error .assertFailed
    else if con.ncmds = cfg.MC_MAX_COMMANDS then pure (-1, con)
    else do
      let funcs ← writeAt con.cmdfuncs con.ncmds func
      let con := { con with cmdfuncs := funcs }
      let slot ← readAt con.cmds con.ncmds
      let slot ← strcpy slot cmd
      let names ← writeAt con.cmds con.ncmds slot
      let con := { con with cmds := names }
      pure (0, { con with ncmds := (con.ncmds + 1) % 2 ^ 32 })

/-- The function `mc_input_key`. -/
def mc_input_key (con : mc_console) (key : mc_keys) : Res (Int × mc_console) :=
  match key with
  | .MC_KEY_LEFT =>
    if con.inpos > 0 then pure (0, { con with inpos := con.inpos - 1 })
    else pure (0, con)
  | .MC_KEY_RIGHT => do
    let c ← readAt con.instr con.inpos
    if c ≠ 0 then pure (0, { con with inpos := (con.inpos + 1) % 2 ^ 32 })
    else pure (0, con)
  | .MC_KEY_UP => pure (0, con)
  | .MC_KEY_DOWN => pure (0, con)
  | .MC_KEY_BACKSPACE =>
    if con.inpos > 0 then do
      let con := { con with inpos := con.inpos - 1 }
      let n ← strlen con.instr
      let count := (n + 2 ^ 64 - con.inpos) % 2 ^ 64
      let buf ← memmove con.instr con.inpos (con.inpos + 1) count
      pure (0, { con with instr := buf })
    else pure (0, con)

/-- The function `mc_input_char`; `key` is the value of the `char` argument.
The branch for `' '..'~'` and the two `switch` cases are empty in the source. -/
def mc_input_char (con : mc_console) (key : Int) : Res (Int × mc_console) :=
  if key = 0 then pure (-1, con)
  else
    let con := if key ≥ 32 ∧ key ≤ 126 then con else con
    let con := match key with
      | 10 => con
      | 9 => con
      | _ => con
    pure (0, con)

/-- The read `_mc_default_font_data[idx]`. -/
def fontPixel (font : mc_default_font) (idx : Nat) : Res Nat :=
  match font.data with
  | none => .error .nullDeref
  | some d => readAt d idx

/-- The write `con->pixels[idx] = p`. -/
def storePixel (con : mc_console) (idx : Nat) (p : mc_pixel) : Res mc_console :=
  match con.pixels with
  | none => .error .nullDeref
  | some px => do
    let px ← writeAt px idx p
    pure { con with pixels := some px }

/-- The body of the inner loop of `mc_blit_glyph_default` for row `i`, column `j`. -/
def blitPixel (cfg : Config) (font : mc_default_font) (x : Nat) (start : Int) (i ty j : Nat)
    (con : mc_console) : Res mc_console := do
  let v ← fontPixel font
    ((start + (j : Int) + (((i * font.width) % 2 ^ 32 : Nat) : Int)) % 2 ^ 32).toNat
  let bit := ((v &&& 1) * 255) % 256
  storePixel con ((x + j + ty) % 2 ^ 32) (grayPixel cfg.pixelFormat bit)

/-- The function `mc_blit_glyph_default`; `glyph` is the value of the `char` argument,
`x` and `y` are `unsigned`. -/
def mc_blit_glyph_default (cfg : Config) (font : mc_default_font) (con : mc_console)
    (x y : Nat) (glyph : Int) : Res (Int × mc_console) :=
  let c : Int := glyph - font.glyph_start
  if c < 0 ∨ c > font.glyph_num then pure (-2, con)
  else do
    let start : Int := c * font.glyph_width
    let con ← forLoop (fun i con =>
        let ty := (((y + i) % 2 ^ 32) * con.width) % 2 ^ 32
        forLoop (fun j con => blitPixel cfg font x start i ty j con)
          font.glyph_width.toNat con)
      font.glyph_height.toNat con
    pure (0, con)

/-- The function `mc_set_texture_size`; the product `width * height` is `unsigned`,
the multiplication by `sizeof(struct mc_pixel)` is done in `size_t`. A request of 0
bytes to `realloc` frees the block and gives the null pointer; `malloc` of 0 bytes gives
a block without slots. The result of `_mc_font_allocate` is ignored by the source. -/
def mc_set_texture_size (bin : List Nat) (fresh : Nat → Nat) (freshPixel : Nat → mc_pixel)
    (font : mc_default_font) (con : mc_console) (width height : Nat) :
    Res (Int × mc_console × mc_default_font) :=
  let slots := (width * height) % 2 ^ 32
  match con.pixels with
  | some px =>
    let block := if slots = 0 then none
      else some (px.take slots ++ (malloc freshPixel slots).drop px.length)
    pure (0, { con with pixels := block, width := width, height := height }, font)
  | none => do
    let con := { con with pixels := some (malloc freshPixel slots) }
    let r ← _mc_font_allocate bin fresh font
    pure (0, { con with width := width, height := height }, r.2)

/-! ## Reading the registry back -/

/-- The pair stored at index `i` of the registry: the C string in the name slot
and the handler. -/
def entryAt (con : mc_console) (i : Nat) : List Nat × Nat :=
  (cstr (con.cmds.getD i []), con.cmdfuncs.getD i 0)

/-- The registered entries, indices `0 .. ncmds - 1` in order. -/
def entries (con : mc_console) : List (List Nat × Nat) :=
  (List.range con.ncmds).map (entryAt con)

/-- Modelled from the spec: the lookup the host performs (it is not part of
`micronsole.h`), "scan entries in registration order and invoke the handler of
the first match"; `none` is `CommandNotFound`. -/
def lookup (con : mc_console) (name : List Nat) : Option Nat :=
  ((entries con).find? (fun e => e.1 == name)).map (fun e => e.2)

/-- Registering a sequence of `(cmd, func)` pairs with `mc_map`, each call
returning `0`; `none` as soon as a call faults or returns another code. -/
def mapAll (cfg : Config) (con : mc_console) : List (List Nat × Nat) → Option mc_console
  | [] => some con
  | (cmd, func) :: rest =>
    match mc_map cfg con cmd func with
    | .ok (r, con1) => if r = 0 then mapAll cfg con1 rest else none
    | .error _ => none

/-! ## The static registry as the bytes it occupies -/

/-- The registry fields of `struct mc_console` in a build with static arrays, with the
array `char cmds[MC_MAX_COMMANDS][MC_MAX_COMMAND_LENGTH]` held as the block of
`MC_MAX_COMMANDS * MC_MAX_COMMAND_LENGTH` bytes it occupies: the rows are adjacent and
row `i` starts at byte `i * MC_MAX_COMMAND_LENGTH`. -/
structure mc_registry where
  cmdfuncs : List Nat
  cmds : List Nat
  ncmds : Nat
  deriving DecidableEq

/-- The registry of a console, its name slots laid out one after the other. -/
def toBlock (con : mc_console) : mc_registry :=
  { cmdfuncs := con.cmdfuncs, cmds := con.cmds.flatten, ncmds := con.ncmds }

/-- The function `mc_map` with static arrays, on the block: the call
`strcpy(con->cmds[con->ncmds], cmd)` writes from the first byte of row `ncmds` on and
only the end of the array stops it. -/
def mc_map_block (cfg : Config) (reg : mc_registry) (cmd : List Nat) (func : Nat) :
    Res (Int × mc_registry) :=
  if cfg.assertsEnabled ∧ ¬ reg.ncmds < cfg.MC_MAX_COMMANDS then .error .assertFailed
  else if reg.ncmds = cfg.MC_MAX_COMMANDS then pure (-1, reg)
  else do
    let funcs ← writeAt reg.cmdfuncs reg.ncmds func
    let reg := { reg with cmdfuncs := funcs }
    let row := reg.ncmds * cfg.MC_MAX_COMMAND_LENGTH
    let rest ← strcpy (reg.cmds.drop row) cmd
    let reg := { reg with cmds := reg.cmds.take row ++ rest }
    pure (0, { reg with ncmds := (reg.ncmds + 1) % 2 ^ 32 })

/-- The pair at index `i` as a reader of the block finds it: the C string that starts
at the first byte of row `i`, and the handler. -/
def blockEntryAt (cfg : Config) (reg : mc_registry) (i : Nat) : List Nat × Nat :=
  (cstr (reg.cmds.drop (i * cfg.MC_MAX_COMMAND_LENGTH)), reg.cmdfuncs.getD i 0)

/-- The registered entries of the block, indices `0 .. ncmds - 1` in order. -/
def blockEntries (cfg : Config) (reg : mc_registry) : List (List Nat × Nat) :=
  (List.range reg.ncmds).map (blockEntryAt cfg reg)

/-- The first-match scan of `lookup`, over the entries of the block. -/
def blockLookup (cfg : Config) (reg : mc_registry) (name : List Nat) : Option Nat :=
  ((blockEntries cfg reg).find? (fun e => e.1 == name)).map (fun e => e.2)

/-- Registering a sequence of `(cmd, func)` pairs with `mc_map` on the block, each call
returning `0`; `none` as soon as a call faults or returns another code. -/
def mapAllBlock (cfg : Config) (reg : mc_registry) : List (List Nat × Nat) → Option mc_registry
  | [] => some reg
  | (cmd, func) :: rest =>
    match mc_map_block cfg reg cmd func with
    | .ok (r, reg1) => if r = 0 then mapAllBlock cfg reg1 rest else none
    | .error _ => none

/-! ## Predicates used in the statements -/

/-- The first `m` entries of `d` are the unpacked bits of the payload of `bin`,
least-significant bit first, and `d` has `total` entries. -/
def Unpacked (bin : List Nat) (total m : Nat) (d : List Nat) : Prop :=
  d.length = total ∧
    ∀ k, k < m → ∃ b, bin[13 + k / 8]? = some b ∧ d[k]? = some ((b >>> (k % 8)) &&& 1)

/-- The surface pixel at index `k`, when there is one. -/
def surfacePixel (con : mc_console) (k : Nat) : Option mc_pixel :=
  match con.pixels with
  | none => none
  | some px => px[k]?

/-- The index in the decoded bitmap of row `i`, column `j` of glyph number `c`:
`c * glyphWidth + j + i * atlasWidth`. -/
def atlasIndex (font : mc_default_font) (c : Int) (i j : Nat) : Nat :=
  (c * font.glyph_width).toNat + j + i * font.width

/-- The index in the surface of row `i`, column `j` of the cell drawn at `(x, y)`:
`(x + j) + (y + i) * width`. -/
def surfaceIndex (con : mc_console) (x y i j : Nat) : Nat :=
  (x + j) + (y + i) * con.width

/-- The layout of the registry in a build with static arrays: `MC_MAX_COMMANDS`
handler entries, `MC_MAX_COMMANDS` name slots of `MC_MAX_COMMAND_LENGTH` bytes, and a
count that does not exceed `MC_MAX_COMMANDS`. -/
def RegistryShape (cfg : Config) (con : mc_console) : Prop :=
  con.cmdfuncs.length = cfg.MC_MAX_COMMANDS ∧ con.cmds.length = cfg.MC_MAX_COMMANDS ∧
    (∀ slot, slot ∈ con.cmds → slot.length = cfg.MC_MAX_COMMAND_LENGTH) ∧
    con.ncmds ≤ cfg.MC_MAX_COMMANDS

/-- The consoles reachable from `mc_create` through calls of `mc_map` that return. -/
inductive Reachable (cfg : Config) : mc_console → Prop where
  | create : Reachable cfg (mc_create cfg).2
  | map (con con1 : mc_console) (cmd : List Nat) (func : Nat) (r : Int) :
      Reachable cfg con → mc_map cfg con cmd func = .ok (r, con1) → Reachable cfg con1

/-- The number of pixel slots of the buffer `con->pixels`; the null pointer has none. -/
def slotCount (con : mc_console) : Nat :=
  match con.pixels with
  | none => 0
  | some px => px.length

/-- The editor invariant: the input buffer holds a NUL and the cursor is at most the
length of the C string in it. -/
def EditorInv (con : mc_console) : Prop :=
  0 ∈ con.instr ∧ con.inpos ≤ (cstr con.instr).length

/-- One call of the host on the input line: `mc_input_key(con, k)` or
`mc_input_char(con, c)`. -/
inductive InputEvent where
  | key (k : mc_keys)
  | char (c : Int)
  deriving DecidableEq

/-- The call that an input event stands for. -/
def inputEvent (con : mc_console) : InputEvent → Res (Int × mc_console)
  | .key k => mc_input_key con k
  | .char c => mc_input_char con c

/-- A sequence of input calls, one after the other on the same console; the return
codes are dropped, as a host that goes on after a `-1` does. -/
def inputAll (con : mc_console) : List InputEvent → Res mc_console
  | [] => .ok con
  | e :: rest => inputEvent con e >>= fun r => inputAll r.2 rest

/-! ## Sample data -/

/-- A font asset with one byte of payload, `0b10110010`, declaring 8 bits. -/
def sampleFontBin : List Nat := [1, 1, 1, 97, 8, 0, 0, 0, 8, 0, 0, 0, 8, 0xB2]

/-- The font decoded from `sampleFontBin`: eight glyphs `'a'..'h'` of 1x1 pixel. -/
def sampleFont : mc_default_font :=
  { is_allocated := true, glyph_width := 1, glyph_height := 1, glyph_start := 97,
    glyph_num := 8, width := 8, data := some [0, 1, 0, 0, 1, 1, 0, 1] }

/-- A small build with static arrays: 2 commands, names of 4 bytes, 4 input bytes. -/
def smallConfig : Config :=
  { dynamicArrays := false, MC_MAX_COMMANDS := 2, MC_MAX_INPUT_LENGTH := 4,
    MC_MAX_COMMAND_LENGTH := 4, assertsEnabled := true, pixelFormat := .RGBA }

/-- A pixel that is neither black nor white. -/
def tintPixel : mc_pixel := { r := 1, g := 2, b := 3, a := some 4 }

/-- A console with a 2x2 RGBA surface filled with `tintPixel`. -/
def smallSurface : mc_console :=
  { (mc_create smallConfig).2 with
      width := 2, height := 2, pixels := some (List.replicate 4 tintPixel) }

/-- The console of `smallConfig` right after `mc_create`. -/
def freshConsole : mc_console := (mc_create smallConfig).2

/-- A console of `smallConfig` whose 4-byte input buffer holds `"abc"` and its NUL,
with the cursor at the end. -/
def fullInput : mc_console :=
  { freshConsole with instr := [97, 98, 99, 0], inpos := 3 }

/-- A console of `smallConfig` whose 4-byte input buffer holds the four bytes `abcd`. -/
def fullInputNoNul : mc_console :=
  { freshConsole with instr := [97, 98, 99, 100], inpos := 4 }

/-- A console of `smallConfig` whose input buffer holds `"abc"` with the cursor at 1. -/
def abcCursor1 : mc_console :=
  { freshConsole with instr := [97, 98, 99, 0], inpos := 1 }

/-- The build `smallConfig` with `MC_DYNAMIC_ARRAYS` defined. -/
def dynamicConfig : Config := { smallConfig with dynamicArrays := true }

/-- The build `smallConfig` with `MC_ASSERT` defined empty. -/
def quietConfig : Config := { smallConfig with assertsEnabled := false }

/-- The console of `smallConfig` after registering `"a"` with handler 1 and `"b"` with
handler 2: both entries of the registry are in use. -/
def fullRegistry : mc_console :=
  { freshConsole with cmdfuncs := [1, 2], cmds := [[97, 0, 0, 0], [98, 0, 0, 0]], ncmds := 2 }

/-- A command name of 64 characters, with its NUL. -/
def name64 : List Nat := List.replicate 64 97 ++ [0]

/-- The console of `smallConfig` after registering `"foo"` with handler 1 and then
`"foo"` again with handler 2. -/
def fooTwice : mc_console :=
  { freshConsole with
      cmdfuncs := [1, 2], cmds := [[102, 111, 111, 0], [102, 111, 111, 0]], ncmds := 2 }

/-- A font asset whose first byte is 2 instead of the magic value 1. -/
def badMagicBin : List Nat := [2, 1, 1, 97, 8, 0, 0, 0, 8, 0, 0, 0, 8, 0xB2]

/-- A console whose input line is `2^32` characters `a` and the NUL, with the cursor at
`2^32 - 1`, the largest value of `unsigned`. -/
def hugeLine : mc_console :=
  { freshConsole with instr := List.replicate (2 ^ 32) 97 ++ [0], inpos := 2 ^ 32 - 1 }

/-- A sequence of host events: `'a'`, RIGHT, `'b'`, BACKSPACE, LEFT, NUL, UP, `'\n'`. -/
def sampleEvents : List InputEvent :=
  [.char 97, .key .MC_KEY_RIGHT, .char 98, .key .MC_KEY_BACKSPACE, .key .MC_KEY_LEFT,
   .char 0, .key .MC_KEY_UP, .char 10]

/-! ## General lemmas -/

theorem bind_ok_iff {α β : Type} (x : Res α) (f : α → Res β) (b : β) :
    (x >>= f) = .ok b ↔ ∃ a, x = .ok a ∧ f a = .ok b := by
  cases x with
  | error e => simp [bind, Except.bind]
  | ok a => simp [bind, Except.bind]

theorem pure_ok_iff {α : Type} (a b : α) : (pure a : Res α) = .ok b ↔ a = b := by
  simp [pure, Except.pure]

theorem readAt_ok_iff {α : Type} (xs : List α) (i : Nat) (v : α) :
    readAt xs i = .ok v ↔ xs[i]? = some v := by
  unfold readAt
  cases h : xs[i]? <;> simp

theorem writeAt_ok_iff {α : Type} (xs : List α) (i : Nat) (v : α) (ys : List α) :
    writeAt xs i v = .ok ys ↔ i < xs.length ∧ ys = xs.set i v := by
  unfold writeAt
  by_cases h : i < xs.length <;> simp [h, eq_comm]

/-- Partial-correctness rule for `forLoop`: an invariant kept by every pass that
returns holds when the loop returns. -/
theorem forLoop_inv {σ : Type} (body : Nat → σ → Res σ) (P : Nat → σ → Prop) :
    ∀ (n : Nat) (s t : σ), P 0 s →
      (∀ i, i < n → ∀ u v, P i u → body i u = .ok v → P (i + 1) v) →
      forLoop body n s = .ok t → P n t := by
  intro n
  induction n with
  | zero =>
    intro s t h0 _ hrun
    simp only [forLoop] at hrun
    cases hrun
    exact h0
  | succ n ih =>
    intro s t h0 hstep hrun
    simp only [forLoop, bind_ok_iff] at hrun
    obtain ⟨u, hu, hv⟩ := hrun
    exact hstep n (Nat.lt_succ_self n) u t
      (ih s u h0 (fun i hi => hstep i (Nat.lt_succ_of_lt hi)) hu) hv

/-- Total-correctness rule for `forLoop`: when every pass returns and keeps the
invariant, the loop returns and the invariant holds at the end. -/
theorem forLoop_total {σ : Type} (body : Nat → σ → Res σ) (P : Nat → σ → Prop) :
    ∀ (n : Nat) (s : σ), P 0 s →
      (∀ i, i < n → ∀ u, P i u → ∃ v, body i u = .ok v ∧ P (i + 1) v) →
      ∃ t, forLoop body n s = .ok t ∧ P n t := by
  intro n
  induction n with
  | zero =>
    intro s h0 _
    exact ⟨s, rfl, h0⟩
  | succ n ih =>
    intro s h0 hstep
    obtain ⟨u, hu, hPu⟩ := ih s h0 (fun i hi => hstep i (Nat.lt_succ_of_lt hi))
    obtain ⟨v, hv, hPv⟩ := hstep n (Nat.lt_succ_self n) u hPu
    exact ⟨v, by simp only [forLoop, bind_ok_iff]; exact ⟨u, hu, hv⟩, hPv⟩

/-! ## Font decoding -/

theorem unpackBit_ok_iff (bin : List Nat) (i j : Nat) (d e : List Nat) :
    unpackBit bin i j d = .ok e ↔
      ∃ b, bin[(i + 13) % 2 ^ 32]? = some b ∧ (i * 8 + j) % 2 ^ 32 < d.length ∧
        e = d.set ((i * 8 + j) % 2 ^ 32) ((b >>> j) &&& 1) := by
  simp only [unpackBit, bind_ok_iff, readAt_ok_iff, writeAt_ok_iff]

theorem unpacked_step (bin : List Nat) (total i j : Nat) (d e : List Nat)
    (hj : j < 8) (hlt : i * 8 + j < total) (htot : total < 2 ^ 32)
    (hd : Unpacked bin total (i * 8 + j) d) (hrun : unpackBit bin i j d = .ok e) :
    Unpacked bin total (i * 8 + j + 1) e := by
  rw [unpackBit_ok_iff] at hrun
  obtain ⟨b, hb, _, he⟩ := hrun
  have h1 : (i + 13) % 2 ^ 32 = i + 13 := Nat.mod_eq_of_lt (by omega)
  have h2 : (i * 8 + j) % 2 ^ 32 = i * 8 + j := Nat.mod_eq_of_lt (by omega)
  rw [h1] at hb
  rw [h2] at he
  obtain ⟨hlen, hbits⟩ := hd
  subst he
  refine ⟨by simpa using hlen, ?_⟩
  intro k hk
  by_cases hkm : k = i * 8 + j
  · subst hkm
    have e1 : (i * 8 + j) / 8 = i := by omega
    have e2 : (i * 8 + j) % 8 = j := by omega
    refine ⟨b, by rw [e1, Nat.add_comm]; exact hb, ?_⟩
    rw [e2, List.getElem?_set_self (by omega)]
  · obtain ⟨c, hc, hdk⟩ := hbits k (by omega)
    refine ⟨c, hc, ?_⟩
    rw [List.getElem?_set_ne (by omega)]
    exact hdk

theorem unpackBit_returns (bin : List Nat) (total i j : Nat) (d : List Nat)
    (hlt : i * 8 + j < total) (htot : total < 2 ^ 32) (hlen : d.length = total)
    (hbin : i + 13 < bin.length) : ∃ e, unpackBit bin i j d = .ok e := by
  have h1 : (i + 13) % 2 ^ 32 = i + 13 := Nat.mod_eq_of_lt (by omega)
  have h2 : (i * 8 + j) % 2 ^ 32 = i * 8 + j := Nat.mod_eq_of_lt (by omega)
  refine ⟨_, (unpackBit_ok_iff bin i j d _).2 ⟨bin[i + 13], ?_, ?_, rfl⟩⟩
  · rw [h1]; exact List.getElem?_eq_getElem hbin
  · rw [h2]; omega

/-- One run of the inner loop (`n` passes, `n ≤ 8`) for payload byte `i`. -/
theorem unpackByte_inv (bin : List Nat) (total i n : Nat) (d e : List Nat)
    (hn : n ≤ 8) (hlt : i * 8 + n ≤ total) (htot : total < 2 ^ 32)
    (hd : Unpacked bin total (i * 8) d)
    (hrun : forLoop (fun j d => unpackBit bin i j d) n d = .ok e) :
    Unpacked bin total (i * 8 + n) e :=
  forLoop_inv (fun j d => unpackBit bin i j d) (fun j t => Unpacked bin total (i * 8 + j) t)
    n d e hd
    (fun j hj u v hu hv => unpacked_step bin total i j u v (by omega) (by omega) htot hu hv)
    hrun

theorem unpackByte_returns (bin : List Nat) (total i n : Nat) (d : List Nat)
    (hlt : i * 8 + n ≤ total) (htot : total < 2 ^ 32) (hlen : d.length = total)
    (hbin : n = 0 ∨ i + 13 < bin.length) :
    ∃ e, forLoop (fun j d => unpackBit bin i j d) n d = .ok e ∧ e.length = total := by
  refine forLoop_total (fun j d => unpackBit bin i j d) (fun _ t => t.length = total)
    n d hlen ?_
  intro j hj u hu
  obtain ⟨v, hv⟩ := unpackBit_returns bin total i j u (by omega) htot hu (by omega)
  refine ⟨v, hv, ?_⟩
  rw [unpackBit_ok_iff] at hv
  obtain ⟨b, _, _, hv⟩ := hv
  subst hv
  simpa using hu

/-- The outer loop over the `len` whole payload bytes. -/
theorem unpackAll_inv (bin : List Nat) (total len : Nat) (d e : List Nat)
    (hlt : len * 8 ≤ total) (htot : total < 2 ^ 32)
    (hd : d.length = total)
    (hrun : forLoop (fun i d => forLoop (fun j d => unpackBit bin i j d) 8 d) len d = .ok e) :
    Unpacked bin total (len * 8) e := by
  refine forLoop_inv (fun i d => forLoop (fun j d => unpackBit bin i j d) 8 d)
    (fun i t => Unpacked bin total (i * 8) t) len d e ⟨hd, fun k hk => by omega⟩ ?_ hrun
  intro i hi u v hu hv
  have h := unpackByte_inv bin total i 8 u v (Nat.le_refl 8) (by omega) htot hu hv
  have e1 : (i + 1) * 8 = i * 8 + 8 := by omega
  rw [e1]
  exact h

theorem unpackAll_returns (bin : List Nat) (total len : Nat) (d : List Nat)
    (hlt : len * 8 ≤ total) (htot : total < 2 ^ 32) (hd : d.length = total)
    (hbin : len + 12 < bin.length ∨ len = 0) :
    ∃ e, forLoop (fun i d => forLoop (fun j d => unpackBit bin i j d) 8 d) len d = .ok e ∧
      e.length = total := by
  refine forLoop_total (fun i d => forLoop (fun j d => unpackBit bin i j d) 8 d)
    (fun _ t => t.length = total) len d hd ?_
  intro i hi u hu
  exact unpackByte_returns bin total i 8 u (by omega) htot hu (Or.inr (by omega))

theorem unpack32_lt (c : List Nat) (i v : Nat) (h : _MC_UNPACK8TO32 c i = .ok v) :
    v < 2 ^ 32 := by
  simp only [_MC_UNPACK8TO32, bind_ok_iff, pure_ok_iff] at h
  obtain ⟨b0, _, b1, _, b2, _, b3, _, hv⟩ := h
  rw [← hv]
  exact Nat.mod_lt _ (by norm_num)

theorem malloc_length {α : Type} (fresh : Nat → α) (n : Nat) : (malloc fresh n).length = n := by
  simp [malloc]

/-- What a returning, decoding call of `_mc_font_allocate` leaves behind. -/
theorem font_allocate_inv (bin : List Nat) (fresh : Nat → Nat) (st st1 : mc_default_font)
    (hst : st.is_allocated = false)
    (hrun : _mc_font_allocate bin fresh st = .ok (0, st1)) :
    ∃ total d, _MC_UNPACK8TO32 bin 9 = .ok total ∧ total < 2 ^ 32 ∧
      st1.data = some d ∧ Unpacked bin total total d ∧ st1.is_allocated = true ∧
      _MC_UNPACK8TO32 bin 5 = .ok st1.width := by
  simp only [_mc_font_allocate, hst, Bool.false_eq_true, if_false, bind_ok_iff] at hrun
  obtain ⟨tag, htag, hrun⟩ := hrun
  by_cases h1 : tag = 1
  · simp only [h1, ne_eq, not_true_eq_false, if_false, bind_ok_iff, pure_ok_iff] at hrun
    obtain ⟨gw, _, gh, _, gs, _, gn, _, w, hw, total, htotal, d1, hd1, d2, hd2, hres⟩ := hrun
    have hlt := unpack32_lt bin 9 total htotal
    have hlen : total >>> 3 * 8 ≤ total := by
      rw [Nat.shiftRight_eq_div_pow]; omega
    have hd1u := unpackAll_inv bin total (total >>> 3) _ d1 hlen hlt (malloc_length fresh total) hd1
    have hrem : total >>> 3 * 8 + total % 8 = total := by
      rw [Nat.shiftRight_eq_div_pow]; omega
    have hmod : total % 8 % 256 = total % 8 := by omega
    rw [hmod] at hd2
    have hd2u : Unpacked bin total total d2 := by
      by_cases hz : total % 8 > 0
      · simp only [hz, if_true] at hd2
        have := unpackByte_inv bin total (total >>> 3) (total % 8) d1 d2 (by omega) (by omega)
          hlt hd1u hd2
        rw [hrem] at this
        exact this
      · simp only [hz, if_false, pure_ok_iff] at hd2
        subst hd2
        have e : total >>> 3 * 8 = total := by omega
        rw [e] at hd1u
        exact hd1u
    have := (Prod.mk.inj hres).2
    subst this
    exact ⟨total, d2, htotal, hlt, rfl, hd2u, rfl, hw⟩
  · simp only [h1, ne_eq, not_false_eq_true, if_true, pure_ok_iff] at hrun
    have := (Prod.mk.inj hrun).1
    omega

/-- A call of `_mc_font_allocate` on an asset with the magic byte and a payload
that is long enough returns `0`. -/
theorem font_allocate_returns (bin : List Nat) (fresh : Nat → Nat) (st : mc_default_font)
    (total : Nat) (hst : st.is_allocated = false) (hmagic : bin[0]? = some 1)
    (htotal : _MC_UNPACK8TO32 bin 9 = .ok total)
    (hpayload : 13 + (total + 7) / 8 ≤ bin.length) :
    ∃ st1, _mc_font_allocate bin fresh st = .ok (0, st1) := by
  have hlt := unpack32_lt bin 9 total htotal
  have hb : ∀ i, i < 13 → ∃ v, readAt bin i = .ok v := by
    intro i hi
    exact ⟨bin[i], (readAt_ok_iff bin i _).2 (List.getElem?_eq_getElem (by omega))⟩
  have hw : ∃ w, _MC_UNPACK8TO32 bin 5 = .ok w := by
    obtain ⟨b0, h0⟩ := hb 5 (by omega)
    obtain ⟨b1, h1⟩ := hb 6 (by omega)
    obtain ⟨b2, h2⟩ := hb 7 (by omega)
    obtain ⟨b3, h3⟩ := hb 8 (by omega)
    exact ⟨_, by simp only [_MC_UNPACK8TO32, bind_ok_iff, pure_ok_iff]
                 exact ⟨b0, h0, b1, h1, b2, h2, b3, h3, rfl⟩⟩
  obtain ⟨w, hw⟩ := hw
  obtain ⟨gw, hgw⟩ := hb 1 (by omega)
  obtain ⟨gh, hgh⟩ := hb 2 (by omega)
  obtain ⟨gs, hgs⟩ := hb 3 (by omega)
  obtain ⟨gn, hgn⟩ := hb 4 (by omega)
  have hdiv : total >>> 3 = total / 8 := by rw [Nat.shiftRight_eq_div_pow]
  obtain ⟨d1, hd1, hlen1⟩ := unpackAll_returns bin total (total >>> 3) (malloc fresh total)
    (by omega) hlt (malloc_length fresh total) (by omega)
  have hmod : total % 8 % 256 = total % 8 := by omega
  obtain ⟨d2, hd2, _⟩ := unpackByte_returns bin total (total >>> 3) (total % 8) d1
    (by omega) hlt hlen1 (by omega)
  simp only [_mc_font_allocate, hst, Bool.false_eq_true, if_false, bind_ok_iff]
  refine ⟨{ is_allocated := true, glyph_width := gw, glyph_height := gh, glyph_start := gs,
            glyph_num := gn, width := w, data := some d2 }, 1,
    (readAt_ok_iff bin 0 1).2 hmagic, ?_⟩
  simp only [ne_eq, not_true_eq_false, if_false, bind_ok_iff, pure_ok_iff]
  refine ⟨gw, hgw, gh, hgh, gs, hgs, gn, hgn, w, hw, total, htotal, d1, hd1, d2, ?_, rfl⟩
  rw [hmod]
  by_cases hz : total % 8 > 0
  · simp only [hz, if_true]; exact hd2
  · simp only [hz, if_false, pure_ok_iff]
    have : total % 8 = 0 := by omega
    rw [this] at hd2
    simpa [forLoop] using hd2

/-! ## Glyph blitting -/

theorem blitPixel_ok_iff (cfg : Config) (font : mc_default_font) (x : Nat) (start : Int)
    (i ty j : Nat) (u v : mc_console) :
    blitPixel cfg font x start i ty j u = .ok v ↔
      ∃ b px, fontPixel font
          ((start + (j : Int) + (((i * font.width) % 2 ^ 32 : Nat) : Int)) % 2 ^ 32).toNat = .ok b ∧
        u.pixels = some px ∧ (x + j + ty) % 2 ^ 32 < px.length ∧
        v = { u with pixels := some (px.set ((x + j + ty) % 2 ^ 32)
                (grayPixel cfg.pixelFormat (((b &&& 1) * 255) % 256))) } := by
  simp only [blitPixel, bind_ok_iff, storePixel]
  constructor
  · rintro ⟨b, hb, h⟩
    cases hp : u.pixels with
    | none => simp [hp] at h
    | some px =>
      simp only [hp, bind_ok_iff, writeAt_ok_iff, pure_ok_iff] at h
      obtain ⟨px1, ⟨hlt, hpx1⟩, hv⟩ := h
      subst hpx1
      exact ⟨b, px, hb, rfl, hlt, hv.symm⟩
  · rintro ⟨b, px, hb, hp, hlt, hv⟩
    refine ⟨b, hb, ?_⟩
    simp only [hp, bind_ok_iff, writeAt_ok_iff, pure_ok_iff]
    exact ⟨_, ⟨hlt, rfl⟩, hv.symm⟩

theorem surfaceIndex_lt (con : mc_console) (x y i j gw gh : Nat)
    (hx : x + gw ≤ con.width) (hy : y + gh ≤ con.height) (hi : i < gh) (hj : j < gw) :
    surfaceIndex con x y i j < con.width * con.height := by
  unfold surfaceIndex
  have h1 : (y + i + 1) * con.width ≤ con.height * con.width :=
    Nat.mul_le_mul_right _ (by omega)
  have h2 : (y + i + 1) * con.width = (y + i) * con.width + con.width := by ring
  have h3 : con.height * con.width = con.width * con.height := Nat.mul_comm _ _
  omega

/-- C1: for a font asset whose byte 0 is 1 and whose payload holds at least
`ceil(totalBits / 8)` bytes, `_mc_font_allocate` returns 0 and leaves a decoded bitmap
of length `totalBits` whose pixel `k` is `(payload[k / 8] >> (k % 8)) & 1`; a payload
byte `0b10110010` at position 0 gives the first eight pixels `[0,1,0,0,1,1,0,1]`. -/
theorem font_allocate_unpacks_lsb_first (bin : List Nat) (fresh : Nat → Nat)
    (st : mc_default_font) (total : Nat)
    (hst : st.is_allocated = false) (hmagic : bin[0]? = some 1)
    (htotal : _MC_UNPACK8TO32 bin 9 = .ok total)
    (hpayload : 13 + (total + 7) / 8 ≤ bin.length) :
    ∃ st1 d, _mc_font_allocate bin fresh st = .ok (0, st1) ∧ st1.data = some d ∧
      d.length = total ∧
      (∀ k, k < total →
        ∃ b, (bin.drop 13)[k / 8]? = some b ∧ d[k]? = some ((b >>> (k % 8)) &&& 1)) ∧
      ((bin.drop 13)[0]? = some 0b10110010 → 8 ≤ total →
        d.take 8 = [0, 1, 0, 0, 1, 1, 0, 1]) := by
  obtain ⟨st1, hrun⟩ := font_allocate_returns bin fresh st total hst hmagic htotal hpayload
  obtain ⟨total1, d, htotal1, _, hd, hun, _, _⟩ := font_allocate_inv bin fresh st st1 hst hrun
  rw [htotal] at htotal1
  cases htotal1
  have hbits : ∀ k, k < total →
      ∃ b, (bin.drop 13)[k / 8]? = some b ∧ d[k]? = some ((b >>> (k % 8)) &&& 1) := by
    intro k hk
    obtain ⟨b, hb, hdk⟩ := hun.2 k hk
    exact ⟨b, by rw [List.getElem?_drop]; exact hb, hdk⟩
  refine ⟨st1, d, hrun, hd, hun.1, hbits, ?_⟩
  intro hbyte h8
  apply List.ext_getElem?
  intro n
  rw [List.getElem?_take]
  by_cases hn : n < 8
  · rw [if_pos hn]
    obtain ⟨b, hb, hdn⟩ := hbits n (by omega)
    have h0 : n / 8 = 0 := by omega
    have h1 : n % 8 = n := by omega
    rw [h0, hbyte] at hb
    cases hb
    rw [hdn, h1]
    interval_cases n <;> rfl
  · rw [if_neg hn]
    have : ([0, 1, 0, 0, 1, 1, 0, 1] : List Nat).length ≤ n := by simp; omega
    rw [List.getElem?_eq_none this]

/-- Witness of C1 on `sampleFontBin`, whose only payload byte is `0b10110010`. -/
theorem font_allocate_unpacks_lsb_first_witness :
    ∃ st1 d, _mc_font_allocate sampleFontBin (fun _ => 7) mc_default_font.initial
        = .ok (0, st1) ∧ st1.data = some d ∧ d.length = 8 ∧
      (∀ k, k < 8 →
        ∃ b, (sampleFontBin.drop 13)[k / 8]? = some b ∧
          d[k]? = some ((b >>> (k % 8)) &&& 1)) ∧
      ((sampleFontBin.drop 13)[0]? = some 0b10110010 → 8 ≤ 8 →
        d.take 8 = [0, 1, 0, 0, 1, 1, 0, 1]) :=
  font_allocate_unpacks_lsb_first sampleFontBin (fun _ => 7) mc_default_font.initial 8
    rfl rfl rfl (by decide)

/-- C2 (the code at the failing input): with the font decoded from `sampleFontBin`
(`glyphStart = 97`, `glyphCount = 8`) the codes `96`, `97` and `104` behave as the claim
says, but the code `glyphStart + glyphCount = 105` passes the range test
`c > glyph_num` and the loop reads decoded pixel 8 of a bitmap of 8 pixels instead of
returning `-2`. -/
theorem blit_glyph_past_last_not_rejected :
    mc_blit_glyph_default smallConfig sampleFont smallSurface 0 0 (97 + 8)
        = .error .outOfBounds ∧
      mc_blit_glyph_default smallConfig sampleFont smallSurface 0 0 (97 - 1)
        = .ok (-2, smallSurface) ∧
      mc_blit_glyph_default smallConfig sampleFont smallSurface 0 0 97
        = .ok (0, { smallSurface with
            pixels := some [grayPixel .RGBA 0, tintPixel, tintPixel, tintPixel] }) ∧
      mc_blit_glyph_default smallConfig sampleFont smallSurface 0 0 (97 + 8 - 1)
        = .ok (0, { smallSurface with
            pixels := some [grayPixel .RGBA 255, tintPixel, tintPixel, tintPixel] }) := by
  refine ⟨by decide, by decide, by decide, by decide⟩


/-- A call of `mc_input_char` with a character other than NUL returns 0 and changes nothing. -/
theorem mc_input_char_nonzero (con : mc_console) (key : Int) (hkey : key ≠ 0) :
    mc_input_char con key = .ok (0, con) := by
  unfold mc_input_char
  rw [if_neg hkey]
  have h1 : (if key ≥ 32 ∧ key ≤ 126 then con else con) = con := by
    split <;> rfl
  simp only [h1]
  split <;> rfl

/-- C4 (counterexample): on the freshly created console (empty buffer, cursor 0, room
for three characters and the NUL) the calls `mc_input_char('a')`, `('b')`, `('c')` each
return 0 and leave the console as it was: the buffer is still empty and the cursor
still 0, not `"abc"` and 3. -/
theorem input_char_abc_leaves_buffer_empty :
    (mc_input_char freshConsole 97 >>= fun r1 =>
      mc_input_char r1.2 98 >>= fun r2 => mc_input_char r2.2 99) = .ok (0, freshConsole) ∧
    freshConsole.instr = [0, 0, 0, 0] ∧ cstr freshConsole.instr = [] ∧
    cstr freshConsole.instr ≠ [97, 98, 99] ∧ freshConsole.inpos = 0 ∧
    freshConsole.inpos ≠ 3 := by
  decide

/-- C4 (amended): for every editor state and every printable character `c`
(`' '` through `'~'`), `mc_input_char(c)` returns 0 and leaves the buffer, the cursor
and every other field of the console unchanged (the branch for printable characters
is empty). -/
theorem input_char_printable_is_noop (con : mc_console) (key : Int)
    (hlo : 32 ≤ key) (hhi : key ≤ 126) :
    mc_input_char con key = .ok (0, con) :=
  mc_input_char_nonzero con key (by omega)

/-- Witness of C4 (amended): the characters `'a'`, `'b'`, `'c'` on the fresh console
leave the buffer empty and the cursor at 0. -/
theorem input_char_printable_is_noop_witness :
    (mc_input_char freshConsole 97 >>= fun r1 =>
      mc_input_char r1.2 98 >>= fun r2 => mc_input_char r2.2 99) = .ok (0, freshConsole) ∧
    cstr freshConsole.instr = [] ∧ freshConsole.inpos = 0 := by
  refine ⟨?_, by decide, by decide⟩
  rw [input_char_printable_is_noop freshConsole 97 (by decide) (by decide)]
  show (mc_input_char freshConsole 98 >>= fun r2 => mc_input_char r2.2 99) = _
  rw [input_char_printable_is_noop freshConsole 98 (by decide) (by decide)]
  exact input_char_printable_is_noop freshConsole 99 (by decide) (by decide)

/-- C6 (counterexample): in the build with `MC_MAX_INPUT_LENGTH = 4`, on a console whose
input buffer is full (`"abc"` and its NUL, or the four bytes `abcd`), `mc_input_char('e')`
returns 0, not a failure code. -/
theorem input_char_full_buffer_returns_zero :
    fullInput.instr.length = smallConfig.MC_MAX_INPUT_LENGTH ∧
    mc_input_char fullInput 101 = .ok (0, fullInput) ∧
    fullInputNoNul.instr.length = smallConfig.MC_MAX_INPUT_LENGTH ∧
    mc_input_char fullInputNoNul 101 = .ok (0, fullInputNoNul) ∧
    (∀ code : Int, code ≠ 0 →
      mc_input_char fullInput 101 ≠ .ok (code, fullInput) ∧
      mc_input_char fullInputNoNul 101 ≠ .ok (code, fullInputNoNul)) := by
  refine ⟨by decide, by decide, by decide, by decide, ?_⟩
  intro code hcode
  rw [mc_input_char_nonzero fullInput 101 (by decide),
    mc_input_char_nonzero fullInputNoNul 101 (by decide)]
  constructor <;> intro h <;> injection h with h <;> injection h with h1 <;> omega

/-- C6 (amended): with static arrays, when the input buffer already holds the maximum
number of characters (its C string fills the `MC_MAX_INPUT_LENGTH` bytes up to the NUL,
or all of them), `mc_input_char` of a further printable character returns 0 (there is
no capacity test and no `BufferFull` code) and leaves the buffer, the cursor and the
rest of the console exactly as they were. -/
theorem input_char_full_buffer_unchanged (cfg : Config) (con : mc_console) (key : Int)
    (_hfixed : cfg.dynamicArrays = false)
    (_hcap : con.instr.length = cfg.MC_MAX_INPUT_LENGTH)
    (_hfull : cfg.MC_MAX_INPUT_LENGTH ≤ (cstr con.instr).length + 1)
    (hlo : 32 ≤ key) (hhi : key ≤ 126) :
    ∃ r, mc_input_char con key = .ok r ∧ r.1 = 0 ∧ r.2 = con ∧
      r.2.instr = con.instr ∧ r.2.inpos = con.inpos :=
  ⟨(0, con), mc_input_char_nonzero con key (by omega), rfl, rfl, rfl, rfl⟩

/-- Witness of C6 (amended): the full 4-byte buffer of `fullInput`. -/
theorem input_char_full_buffer_unchanged_witness :
    ∃ r, mc_input_char fullInput 101 = .ok r ∧ r.1 = 0 ∧ r.2 = fullInput ∧
      r.2.instr = fullInput.instr ∧ r.2.inpos = fullInput.inpos :=
  input_char_full_buffer_unchanged smallConfig fullInput 101 rfl (by decide) (by decide)
    (by decide) (by decide)


/-! ### C strings -/

theorem cstr_no_zero (s : List Nat) : ∀ b, b ∈ cstr s → b ≠ 0 := by
  intro b hb
  have := List.mem_takeWhile_imp hb
  simpa using this

/-- A buffer that contains a NUL is its C string, the NUL, and what follows. -/
theorem cstr_split (s : List Nat) (h : 0 ∈ s) :
    s = cstr s ++ 0 :: s.drop ((cstr s).length + 1) := by
  induction s with
  | nil => cases h
  | cons a t ih =>
    by_cases ha : a = 0
    · subst ha
      simp [cstr]
    · have ht : 0 ∈ t := by
        rcases List.mem_cons.1 h with h0 | h0
        · exact absurd h0.symm ha
        · exact h0
      have e : cstr (a :: t) = a :: cstr t := by
        simp [cstr, ha]
      rw [e]
      simp only [List.cons_append, List.length_cons, List.drop_succ_cons]
      rw [← ih ht]

theorem cstr_append_zero (s r : List Nat) (hs : ∀ b, b ∈ s → b ≠ 0) :
    cstr (s ++ 0 :: r) = s := by
  induction s with
  | nil => simp [cstr]
  | cons a t ih =>
    have ha : a ≠ 0 := hs a (List.mem_cons_self a t)
    have e : cstr (a :: (t ++ 0 :: r)) = a :: cstr (t ++ 0 :: r) := by
      simp [cstr, ha]
    rw [List.cons_append, e, ih (fun b hb => hs b (List.mem_cons_of_mem a hb))]

theorem strlen_ok (s : List Nat) (h : 0 ∈ s) : strlen s = .ok (cstr s).length := by
  simp [strlen, h]

/-- The buffer after `memmove(buf + p - 1, buf + p, strlen(buf) - (p - 1))`. -/
theorem memmove_backspace (s r : List Nat) (p : Nat) (hp : 0 < p) (hpl : p ≤ s.length) :
    memmove (s ++ 0 :: r) (p - 1) (p - 1 + 1) (s.length - (p - 1)) =
      .ok (s.take (p - 1) ++ s.drop p ++ 0 :: 0 :: r) := by
  have e1 : p - 1 + 1 = p := by omega
  unfold memmove
  rw [e1]
  have hb : p + (s.length - (p - 1)) ≤ (s ++ 0 :: r).length ∧
      p - 1 + (s.length - (p - 1)) ≤ (s ++ 0 :: r).length := by
    simp only [List.length_append, List.length_cons]
    omega
  rw [if_pos hb]
  have t1 : (s ++ 0 :: r).take (p - 1) = s.take (p - 1) :=
    List.take_append_of_le_length (by omega)
  have t2 : ((s ++ 0 :: r).drop p).take (s.length - (p - 1)) = s.drop p ++ [0] := by
    rw [List.drop_append_of_le_length hpl]
    have hl : s.length - (p - 1) = (s.drop p).length + 1 := by
      simp only [List.length_drop]; omega
    rw [hl, List.take_append_eq_append_take]
    simp
  have t3 : (s ++ 0 :: r).drop (p - 1 + (s.length - (p - 1))) = 0 :: r := by
    have hl : p - 1 + (s.length - (p - 1)) = s.length := by omega
    rw [hl]
    simp
  rw [t1, t2, t3]
  simp [pure, Except.pure]

/-- The bytes of the buffer after a backspace, in terms of the bytes before. -/
theorem backspace_buf_get (s r : List Nat) (p k : Nat) (hp : 0 < p) (hpl : p ≤ s.length) :
   (s.take (p - 1) ++ s.drop p ++ 0 :: 0 :: r)[k]? =
     if k < p - 1 then (s ++ 0 :: r)[k]? else if k < s.length then (s ++ 0 :: r)[k + 1]?
     else (s ++ 0 :: r)[k]? := by
  have hmin : min (p - 1) s.length = p - 1 := min_eq_left (by omega)
  simp only [List.getElem?_append, List.length_append, List.length_take, List.length_drop,
    List.getElem?_take, List.getElem?_drop, hmin]
  by_cases h1 : k < p - 1
  · simp only [h1, if_true]
    rw [if_pos (by omega), if_pos (by omega)]
  · by_cases h2 : k + 1 < s.length
    · rw [if_neg h1, if_pos (by omega), if_neg h1, if_pos (by omega), if_pos h2]
      congr 1; omega
    · by_cases h3 : k < s.length
      · rw [if_neg h1, if_neg (by omega), if_neg h1, if_pos h3, if_neg h2]
        have e1 : k - (p - 1 + (s.length - p)) = 0 := by omega
        have e2 : k + 1 - s.length = 0 := by omega
        rw [e1, e2]
        simp
      · rw [if_neg h1, if_neg (by omega), if_neg h1, if_neg h3, if_neg (by omega)]
        have e1 : k - (p - 1 + (s.length - p)) = (k - s.length) + 1 := by omega
        rw [e1]
        simp

/-- C5: for a NUL-terminated buffer whose C string has length `L` and a cursor `p` with
`0 < p ≤ L`, `mc_input_key(MC_KEY_BACKSPACE)` returns 0 and yields the buffer with the
byte at index `p - 1` removed (the later bytes and the NUL moved left by one, so the
length is `L - 1`) and the cursor `p - 1`, nothing else changed; with `p = 0` the
console is unchanged. -/
theorem backspace_removes_byte_before_cursor (con : mc_console) (L : Nat)
    (hnul : 0 ∈ con.instr) (hL : (cstr con.instr).length = L) (h64 : L < 2 ^ 64) :
    (0 < con.inpos → con.inpos ≤ L →
      ∃ buf, mc_input_key con .MC_KEY_BACKSPACE
          = .ok (0, { con with inpos := con.inpos - 1, instr := buf }) ∧
        cstr buf = (cstr con.instr).eraseIdx (con.inpos - 1) ∧
        (cstr buf).length = L - 1 ∧
        buf.length = con.instr.length ∧
        (∀ k, k < con.inpos - 1 → buf[k]? = con.instr[k]?) ∧
        (∀ k, con.inpos - 1 ≤ k → k < L → buf[k]? = con.instr[k + 1]?) ∧
        buf[L - 1]? = some 0 ∧
        (∀ k, L ≤ k → buf[k]? = con.instr[k]?)) ∧
    (con.inpos = 0 → mc_input_key con .MC_KEY_BACKSPACE = .ok (0, con)) := by
  constructor
  · intro hp hpl
    have hsplit := cstr_split con.instr hnul
    have hnz := cstr_no_zero con.instr
    generalize hs : cstr con.instr = s at hsplit hnz hL
    generalize hr : con.instr.drop (s.length + 1) = r at hsplit
    subst hL
    have hcount : (s.length + 2 ^ 64 - (con.inpos - 1)) % 2 ^ 64 = s.length - (con.inpos - 1) := by
      omega
    have hc : cstr (s.take (con.inpos - 1) ++ s.drop con.inpos ++ 0 :: 0 :: r) =
        s.take (con.inpos - 1) ++ s.drop con.inpos := by
      apply cstr_append_zero
      intro b hb
      rcases List.mem_append.1 hb with h1 | h1
      · exact hnz b (List.mem_of_mem_take h1)
      · exact hnz b (List.mem_of_mem_drop h1)
    refine ⟨s.take (con.inpos - 1) ++ s.drop con.inpos ++ 0 :: 0 :: r,
      ?_, ?_, ?_, ?_, ?_, ?_, ?_, ?_⟩
    · simp only [mc_input_key, hp, if_true, bind_ok_iff, pure_ok_iff]
      refine ⟨s.length, by rw [strlen_ok _ hnul, hs], _, ?_, rfl⟩
      rw [hcount]
      have := memmove_backspace s r con.inpos hp hpl
      rw [← hsplit] at this
      exact this
    · exact hc.trans (by
        rw [List.eraseIdx_eq_take_drop_succ]
        have e1 : con.inpos - 1 + 1 = con.inpos := by omega
        rw [e1])
    · rw [hc]
      simp only [List.length_append, List.length_take, List.length_drop]
      omega
    · rw [hsplit]
      simp only [List.length_append, List.length_take, List.length_drop, List.length_cons]
      omega
    · intro k hk
      rw [hsplit, backspace_buf_get s r con.inpos k hp hpl, if_pos hk]
    · intro k hk1 hk2
      rw [hsplit, backspace_buf_get s r con.inpos k hp hpl, if_neg (by omega), if_pos hk2]
    · rw [backspace_buf_get s r con.inpos _ hp hpl, if_neg (by omega), if_pos (by omega)]
      have e1 : s.length - 1 + 1 = s.length := by omega
      rw [e1, List.getElem?_append_right (Nat.le_refl _), Nat.sub_self]
      exact List.getElem?_cons_zero
    · intro k hk
      rw [hsplit, backspace_buf_get s r con.inpos k hp hpl, if_neg (by omega),
        if_neg (by omega)]
  · intro hp
    simp [mc_input_key, hp, pure, Except.pure]


/-- Witness of C5: `"abc"` with the cursor at 1 becomes `"bc"` with the cursor at 0. -/
theorem backspace_removes_byte_before_cursor_witness :
    ∃ buf, mc_input_key abcCursor1 .MC_KEY_BACKSPACE
        = .ok (0, { abcCursor1 with inpos := 0, instr := buf }) ∧
      cstr buf = [98, 99] :=
  match (backspace_removes_byte_before_cursor abcCursor1 3 (by decide) (by decide)
      (by norm_num)).1 (by decide) (by decide) with
  | ⟨buf, h1, h2, _⟩ => ⟨buf, h1, h2⟩

/-! ## Claims about the command registry -/

theorem realloc_length {α : Type} (xs : List α) (n : Nat) (fill : α) :
    (realloc xs n fill).length = n := by
  simp only [realloc, List.length_append, List.length_take, List.length_replicate]
  omega

/-- With `MC_DYNAMIC_ARRAYS` every call of `mc_map` writes the handler one entry past
the block that `realloc` has just sized to `ncmds` entries. -/
theorem mc_map_dynamic_faults (cfg : Config) (con : mc_console) (cmd : List Nat) (func : Nat)
    (hdyn : cfg.dynamicArrays = true) : mc_map cfg con cmd func = .error .outOfBounds := by
  have h : ¬ con.ncmds < (realloc con.cmdfuncs con.ncmds 0).length := by
    rw [realloc_length]; omega
  simp [mc_map, hdyn, writeAt, h, bind, Except.bind]

/-- What a returning call of `mc_map` has done, with static arrays. -/
theorem mc_map_fixed_inv (cfg : Config) (con con1 : mc_console) (cmd : List Nat) (func : Nat)
    (r : Int) (hfixed : cfg.dynamicArrays = false)
    (hrun : mc_map cfg con cmd func = .ok (r, con1)) :
    (con.ncmds = cfg.MC_MAX_COMMANDS ∧ cfg.assertsEnabled = false ∧ r = -1 ∧ con1 = con) ∨
    (con.ncmds ≠ cfg.MC_MAX_COMMANDS ∧ r = 0 ∧ con.ncmds < con.cmdfuncs.length ∧
      ∃ slot, con.cmds[con.ncmds]? = some slot ∧ 0 ∈ cmd ∧
        (cstr cmd).length + 1 ≤ slot.length ∧
        con1 = { con with
          cmdfuncs := con.cmdfuncs.set con.ncmds func
          cmds := con.cmds.set con.ncmds
            (cmd.take ((cstr cmd).length + 1) ++ slot.drop ((cstr cmd).length + 1))
          ncmds := (con.ncmds + 1) % 2 ^ 32 }) := by
  unfold mc_map at hrun
  simp only [hfixed, Bool.false_eq_true, if_false] at hrun
  by_cases ha : cfg.assertsEnabled = true ∧ ¬ con.ncmds < cfg.MC_MAX_COMMANDS
  · rw [if_pos ha] at hrun
    cases hrun
  · rw [if_neg ha] at hrun
    by_cases hfull : con.ncmds = cfg.MC_MAX_COMMANDS
    · rw [if_pos hfull, pure_ok_iff] at hrun
      left
      have h1 := (Prod.mk.inj hrun).1
      have h2 := (Prod.mk.inj hrun).2
      refine ⟨hfull, ?_, h1.symm, h2.symm⟩
      cases hb : cfg.assertsEnabled
      · rfl
      · exact absurd ⟨hb, by omega⟩ ha
    · rw [if_neg hfull] at hrun
      right
      simp only [bind_ok_iff, writeAt_ok_iff, readAt_ok_iff, pure_ok_iff, strcpy] at hrun
      obtain ⟨funcs, ⟨hlt, hfuncs⟩, slot, hslot, slot1, ⟨n, hn, hcopy⟩, names,
        ⟨_, hnames⟩, hres⟩ := hrun
      have hnul : 0 ∈ cmd := by
        by_contra hno
        simp [strlen, hno] at hn
      rw [strlen_ok cmd hnul] at hn
      cases hn
      by_cases hfit : (cstr cmd).length + 1 ≤ slot.length
      · rw [if_pos hfit, pure_ok_iff] at hcopy
        subst hcopy hnames hfuncs
        exact ⟨hfull, ((Prod.mk.inj hres).1).symm, hlt, slot, hslot, hnul, hfit,
          ((Prod.mk.inj hres).2).symm⟩
      · rw [if_neg hfit] at hcopy
        cases hcopy


theorem take_cstr_succ (cmd : List Nat) (hnul : 0 ∈ cmd) :
    cmd.take ((cstr cmd).length + 1) = cstr cmd ++ [0] := by
  have h := cstr_split cmd hnul
  generalize cstr cmd = s at h
  generalize cmd.drop (s.length + 1) = r at h
  rw [h, List.take_append]
  simp

/-- The slot after `strcpy(slot, cmd)` holds the C string of `cmd`, has the size of
`slot`, and the NUL of the copy is inside it. -/
theorem strcpy_slot (cmd slot : List Nat) (hnul : 0 ∈ cmd)
    (hfit : (cstr cmd).length + 1 ≤ slot.length) :
    cstr (cmd.take ((cstr cmd).length + 1) ++ slot.drop ((cstr cmd).length + 1)) = cstr cmd ∧
    (cmd.take ((cstr cmd).length + 1) ++ slot.drop ((cstr cmd).length + 1)).length
      = slot.length ∧
    (cmd.take ((cstr cmd).length + 1) ++ slot.drop ((cstr cmd).length + 1))[(cstr cmd).length]?
      = some 0 := by
  rw [take_cstr_succ cmd hnul]
  refine ⟨?_, ?_, ?_⟩
  · rw [List.append_assoc]
    exact cstr_append_zero _ _ (cstr_no_zero cmd)
  · simp only [List.length_append, List.length_drop, List.length_cons, List.length_nil]
    omega
  · rw [List.append_assoc, List.getElem?_append_right (Nat.le_refl _), Nat.sub_self]
    exact List.getElem?_cons_zero

/-- With static arrays and room in the registry, `mc_map` of a name that is shorter
than `MC_MAX_COMMAND_LENGTH` returns 0. -/
theorem mc_map_fixed_returns (cfg : Config) (con : mc_console) (cmd : List Nat) (func : Nat)
    (hfixed : cfg.dynamicArrays = false) (hshape : RegistryShape cfg con)
    (hroom : con.ncmds < cfg.MC_MAX_COMMANDS) (hnul : 0 ∈ cmd)
    (hlen : (cstr cmd).length < cfg.MC_MAX_COMMAND_LENGTH) :
    ∃ con1, mc_map cfg con cmd func = .ok (0, con1) := by
  obtain ⟨hf, hc, hslots, _⟩ := hshape
  have hlt : con.ncmds < con.cmds.length := by omega
  have hslot : con.cmds[con.ncmds]? = some con.cmds[con.ncmds] := List.getElem?_eq_getElem hlt
  have hsl : con.cmds[con.ncmds].length = cfg.MC_MAX_COMMAND_LENGTH :=
    hslots _ (List.getElem_mem hlt)
  unfold mc_map
  simp only [hfixed, Bool.false_eq_true, if_false]
  rw [if_neg (by intro h; exact h.2 hroom), if_neg (by omega)]
  simp only [bind_ok_iff, writeAt_ok_iff, readAt_ok_iff, pure_ok_iff, strcpy]
  refine ⟨{ con with
      cmdfuncs := con.cmdfuncs.set con.ncmds func
      cmds := con.cmds.set con.ncmds
        (cmd.take ((cstr cmd).length + 1) ++ con.cmds[con.ncmds].drop ((cstr cmd).length + 1))
      ncmds := (con.ncmds + 1) % 2 ^ 32 },
    con.cmdfuncs.set con.ncmds func, ⟨by omega, rfl⟩, con.cmds[con.ncmds], hslot,
    cmd.take ((cstr cmd).length + 1) ++ con.cmds[con.ncmds].drop ((cstr cmd).length + 1),
    ⟨(cstr cmd).length, strlen_ok cmd hnul, ?_⟩, _, ⟨hlt, rfl⟩, rfl⟩
  rw [if_pos (by omega), pure_ok_iff]

/-- One registration that returns 0, on a registry of the static layout: the layout is
kept, the count grows by one, and the new pair is appended to the entries. -/
theorem mc_map_step (cfg : Config) (con con1 : mc_console) (cmd : List Nat) (func : Nat)
    (hfixed : cfg.dynamicArrays = false) (hcap : cfg.MC_MAX_COMMANDS < 2 ^ 32)
    (hshape : RegistryShape cfg con)
    (hrun : mc_map cfg con cmd func = .ok (0, con1)) :
    RegistryShape cfg con1 ∧ con1.ncmds = con.ncmds + 1 ∧
      entries con1 = entries con ++ [(cstr cmd, func)] := by
  obtain ⟨hf, hc, hslots, hn⟩ := hshape
  rcases mc_map_fixed_inv cfg con con1 cmd func 0 hfixed hrun with h | h
  · have := h.2.2.1
    omega
  · obtain ⟨hne, _, hlt, slot, hslot, hnul, hfit, hcon1⟩ := h
    obtain ⟨hs1, hs2, _⟩ := strcpy_slot cmd slot hnul hfit
    have hmod : (con.ncmds + 1) % 2 ^ 32 = con.ncmds + 1 := Nat.mod_eq_of_lt (by omega)
    have hslotlen : slot.length = cfg.MC_MAX_COMMAND_LENGTH :=
      hslots slot (List.getElem?_mem hslot)
    subst hcon1
    refine ⟨⟨?_, ?_, ?_, ?_⟩, hmod, ?_⟩
    · simpa using hf
    · simpa using hc
    · intro sl hsl
      rcases List.mem_or_eq_of_mem_set hsl with h1 | h1
      · exact hslots sl h1
      · rw [h1, hs2, hslotlen]
    · show (con.ncmds + 1) % 2 ^ 32 ≤ cfg.MC_MAX_COMMANDS
      omega
    · unfold entries
      show List.map _ (List.range ((con.ncmds + 1) % 2 ^ 32)) = _
      rw [hmod, List.range_succ, List.map_append]
      congr 1
      · apply List.map_congr_left
        intro i hi
        have hi1 : i < con.ncmds := List.mem_range.1 hi
        have hne1 : con.ncmds ≠ i := by omega
        simp only [entryAt, List.getD_eq_getElem?_getD, List.getElem?_set_ne hne1]
      · simp only [List.map_cons, List.map_nil, entryAt, List.getD_eq_getElem?_getD,
          List.getElem?_set_self hlt, List.getElem?_set_self (show con.ncmds < con.cmds.length by omega),
          Option.getD_some, hs1]

theorem mc_create_shape (cfg : Config) (hfixed : cfg.dynamicArrays = false) :
    RegistryShape cfg (mc_create cfg).2 ∧ (mc_create cfg).2.ncmds = 0 := by
  simp only [mc_create, hfixed, Bool.false_eq_true, if_false, RegistryShape,
    List.length_replicate, true_and, Nat.zero_le, and_true]
  intro slot hslot
  rw [List.eq_of_mem_replicate hslot, List.length_replicate]

/-- A sequence of registrations that all return 0 appends its pairs to the entries. -/
theorem mapAll_entries (cfg : Config) (hfixed : cfg.dynamicArrays = false)
    (hcap : cfg.MC_MAX_COMMANDS < 2 ^ 32) :
    ∀ (regs : List (List Nat × Nat)) (con con1 : mc_console), RegistryShape cfg con →
      mapAll cfg con regs = some con1 →
      entries con1 = entries con ++ regs.map (fun r => (cstr r.1, r.2)) := by
  intro regs
  induction regs with
  | nil =>
    intro con con1 _ h
    simp only [mapAll, Option.some.injEq] at h
    simp [h]
  | cons reg rest ih =>
    intro con con1 hshape h
    obtain ⟨cmd, func⟩ := reg
    simp only [mapAll] at h
    cases hm : mc_map cfg con cmd func with
    | error e => simp [hm] at h
    | ok res =>
      obtain ⟨r, con2⟩ := res
      simp only [hm] at h
      by_cases hr : r = 0
      · subst hr
        simp only [if_true] at h
        obtain ⟨hshape2, _, hent⟩ := mc_map_step cfg con con2 cmd func hfixed hcap hshape hm
        rw [ih con2 con1 hshape2 h, hent]
        simp
      · simp [hr] at h


set_option maxRecDepth 20000 in
/-- C7 (the code at the failing input, and what holds below it): in the default build
(`MC_MAX_COMMAND_LENGTH = 64`) a name of 64 characters does not exceed the maximum
length, yet `strcpy` needs 65 bytes and the call on the fresh console writes past the
64-byte slot `cmds[0]`. For every name that is shorter than `MC_MAX_COMMAND_LENGTH` the
claim holds: the call returns 0, the handler and the name (with its NUL inside the
slot) are stored at index `count`, `count` grows by one and every other handler slot
and name slot is unchanged. -/
theorem map_name_of_maximum_length_overruns_slot :
    ((cstr name64).length = 64 ∧
      (cstr name64).length ≤ (defaultConfig .RGB).MC_MAX_COMMAND_LENGTH ∧
      (mc_create (defaultConfig .RGB)).2.ncmds < (defaultConfig .RGB).MC_MAX_COMMANDS ∧
      mc_map (defaultConfig .RGB) (mc_create (defaultConfig .RGB)).2 name64 7
        = .error .outOfBounds) ∧
    (∀ (cfg : Config) (con : mc_console) (cmd : List Nat) (func : Nat),
      cfg.dynamicArrays = false → cfg.MC_MAX_COMMANDS < 2 ^ 32 → RegistryShape cfg con →
      con.ncmds < cfg.MC_MAX_COMMANDS → 0 ∈ cmd →
      (cstr cmd).length < cfg.MC_MAX_COMMAND_LENGTH →
      ∃ con1 slot, mc_map cfg con cmd func = .ok (0, con1) ∧
        con1.ncmds = con.ncmds + 1 ∧
        con1.cmdfuncs[con.ncmds]? = some func ∧
        con1.cmds[con.ncmds]? = some slot ∧ cstr slot = cstr cmd ∧
        slot.length = cfg.MC_MAX_COMMAND_LENGTH ∧ slot[(cstr cmd).length]? = some 0 ∧
        (∀ i, i ≠ con.ncmds →
          con1.cmdfuncs[i]? = con.cmdfuncs[i]? ∧ con1.cmds[i]? = con.cmds[i]?)) := by
  refine ⟨⟨by decide, by decide, by decide, by decide⟩, ?_⟩
  intro cfg con cmd func hfixed hcap hshape hroom hnul hlen
  obtain ⟨con1, hrun⟩ := mc_map_fixed_returns cfg con cmd func hfixed hshape hroom hnul hlen
  rcases mc_map_fixed_inv cfg con con1 cmd func 0 hfixed hrun with h | h
  · have := h.2.2.1
    omega
  · obtain ⟨_, _, hlt, slot, hslot, _, hfit, hcon1⟩ := h
    obtain ⟨hs1, hs2, hs3⟩ := strcpy_slot cmd slot hnul hfit
    have hclt : con.ncmds < con.cmds.length := by
      have := hshape.2.1
      omega
    have hmod : (con.ncmds + 1) % 2 ^ 32 = con.ncmds + 1 := Nat.mod_eq_of_lt (by omega)
    refine ⟨con1, _, hrun, ?_, ?_, ?_, hs1, ?_, hs3, ?_⟩
    · rw [hcon1]; exact hmod
    · rw [hcon1]; exact List.getElem?_set_self hlt
    · rw [hcon1]; exact List.getElem?_set_self hclt
    · rw [hs2]; exact hshape.2.2.1 slot (List.getElem?_mem hslot)
    · intro i hi
      rw [hcon1]
      exact ⟨List.getElem?_set_ne (Ne.symm hi), List.getElem?_set_ne (Ne.symm hi)⟩

/-- For every sequence of registrations on a freshly created console that all return 0
in the reading of the name slots as separate objects, the entries read back in index
order are the registered pairs in insertion order, duplicates included, and the
first-match lookup of a name gives the handler of the earliest registration of that
name. -/
theorem registry_keeps_insertion_order (cfg : Config) (regs : List (List Nat × Nat))
    (con : mc_console) (hcap : cfg.MC_MAX_COMMANDS < 2 ^ 32)
    (hrun : mapAll cfg (mc_create cfg).2 regs = some con) :
    entries con = regs.map (fun r => (cstr r.1, r.2)) ∧
    ∀ name, lookup con name =
      (regs.find? (fun r => cstr r.1 == name)).map (fun r => r.2) := by
  have hent : entries con = regs.map (fun r => (cstr r.1, r.2)) := by
    cases hmode : cfg.dynamicArrays
    · obtain ⟨hshape, h0⟩ := mc_create_shape cfg hmode
      have := mapAll_entries cfg hmode hcap regs _ con hshape hrun
      rw [this]
      simp [entries, h0]
    · cases regs with
      | nil =>
        simp only [mapAll, Option.some.injEq] at hrun
        subst hrun
        simp [entries, mc_create, hmode]
      | cons reg rest =>
        obtain ⟨cmd, func⟩ := reg
        simp [mapAll, mc_map_dynamic_faults cfg _ cmd func hmode] at hrun
  refine ⟨hent, ?_⟩
  intro name
  unfold lookup
  rw [hent, List.find?_map, Option.map_map]
  rfl

/-- With static arrays every reachable console has the static registry layout. -/
theorem reachable_shape (cfg : Config) (hfixed : cfg.dynamicArrays = false)
    (con : mc_console) (h : Reachable cfg con) : RegistryShape cfg con := by
  induction h with
  | create => exact (mc_create_shape cfg hfixed).1
  | map con con1 cmd func r _ hrun ih =>
    rcases mc_map_fixed_inv cfg con con1 cmd func r hfixed hrun with h | h
    · rw [h.2.2.2]
      exact ih
    · obtain ⟨hne, _, hlt, slot, hslot, hnul, hfit, hcon1⟩ := h
      obtain ⟨hf, hc, hslots, hn⟩ := ih
      obtain ⟨_, hs2, _⟩ := strcpy_slot cmd slot hnul hfit
      have hle : (con.ncmds + 1) % 2 ^ 32 ≤ con.ncmds + 1 := Nat.mod_le _ _
      subst hcon1
      refine ⟨by simpa using hf, by simpa using hc, ?_, ?_⟩
      · intro sl hsl
        rcases List.mem_or_eq_of_mem_set hsl with h1 | h1
        · exact hslots sl h1
        · rw [h1, hs2]
          exact hslots slot (List.getElem?_mem hslot)
      · show (con.ncmds + 1) % 2 ^ 32 ≤ cfg.MC_MAX_COMMANDS
        omega

/-- C9 (counterexample): in the build `smallConfig` (two commands, `assert` active) the
registry is full after two registrations; a third call of `mc_map` stops at
`MC_ASSERT(con->ncmds < MC_MAX_COMMANDS)` and does not return `-1` to its caller. -/
theorem map_on_full_registry_stops_at_assert :
    mapAll smallConfig (mc_create smallConfig).2 [([97, 0], 1), ([98, 0], 2)]
        = some fullRegistry ∧
    fullRegistry.ncmds = smallConfig.MC_MAX_COMMANDS ∧
    mc_map smallConfig fullRegistry [99, 0] 3 = .error .assertFailed ∧
    mc_map smallConfig fullRegistry [99, 0] 3 ≠ .ok (-1, fullRegistry) := by
  decide

/-- C9 (amended): with static arrays, when `count == MC_MAX_COMMANDS`, `mc_map` never
changes the count, a handler slot or a name slot: where `MC_ASSERT` expands to nothing
it returns `-1` with the console unchanged, and where `MC_ASSERT` checks its argument
the call stops at the failed assertion without returning; consequently
`count ≤ MC_MAX_COMMANDS` holds in every console reachable from `mc_create` through
`mc_map`. -/
theorem map_on_full_registry_changes_nothing (cfg : Config)
    (hfixed : cfg.dynamicArrays = false) :
    (∀ (con : mc_console) (cmd : List Nat) (func : Nat),
      con.ncmds = cfg.MC_MAX_COMMANDS →
      mc_map cfg con cmd func =
        if cfg.assertsEnabled then .error .assertFailed else .ok (-1, con)) ∧
    (∀ con, Reachable cfg con → con.ncmds ≤ cfg.MC_MAX_COMMANDS) := by
  constructor
  · intro con cmd func hfull
    unfold mc_map
    simp only [hfixed, Bool.false_eq_true, if_false]
    cases ha : cfg.assertsEnabled
    · simp [hfull, pure, Except.pure]
    · simp [hfull]
  · intro con hreach
    exact (reachable_shape cfg hfixed con hreach).2.2.2

/-- Witness of C9 (amended): in `quietConfig` (`MC_ASSERT` empty) the third registration
on the full registry returns `-1` and changes nothing; the full registry is reachable
and its count is within `MC_MAX_COMMANDS`. -/
theorem map_on_full_registry_changes_nothing_witness :
    mc_map quietConfig fullRegistry [99, 0] 3 = .ok (-1, fullRegistry) ∧
    fullRegistry.ncmds ≤ quietConfig.MC_MAX_COMMANDS :=
  ⟨(map_on_full_registry_changes_nothing quietConfig rfl).1 fullRegistry [99, 0] 3 rfl,
   (map_on_full_registry_changes_nothing quietConfig rfl).2 fullRegistry
    (Reachable.map
      { freshConsole with cmdfuncs := [1, 0], cmds := [[97, 0, 0, 0], [0, 0, 0, 0]], ncmds := 1 }
      fullRegistry [98, 0] 2 0
      (Reachable.map (mc_create quietConfig).2 _ [97, 0] 1 0 Reachable.create (by decide))
      (by decide))⟩

/-- C10 (the code at the failing input): with `MC_DYNAMIC_ARRAYS`, `mc_map` resizes the
handler array and the name-pointer array to `count` entries, not `count + 1`, so the
write at index `count` is outside the resized storage; on the fresh console (count 0)
both arrays are resized to 0 entries and the first registration already faults. -/
theorem map_dynamic_resizes_to_count_not_count_plus_one :
    (∀ (con : mc_console),
      (realloc con.cmdfuncs con.ncmds 0).length = con.ncmds ∧
      (realloc con.cmds con.ncmds []).length = con.ncmds) ∧
    (mc_create dynamicConfig).2.ncmds = 0 ∧
    mc_map dynamicConfig (mc_create dynamicConfig).2 [102, 111, 111, 0] 1
      = .error .outOfBounds ∧
    (∀ (cfg : Config) (con : mc_console) (cmd : List Nat) (func : Nat),
      cfg.dynamicArrays = true → mc_map cfg con cmd func = .error .outOfBounds) := by
  refine ⟨fun con => ⟨realloc_length _ _ _, realloc_length _ _ _⟩, by decide, by decide, ?_⟩
  intro cfg con cmd func hdyn
  exact mc_map_dynamic_faults cfg con cmd func hdyn


/-! ## Claims about the font header and the decoder state -/

/-- For four bytes the value of `_MC_UNPACK8TO32` is the big-endian number. -/
theorem unpack_bytes_value (a b c d : Nat) (ha : a < 256) (hb : b < 256) (hc : c < 256)
    (hd : d < 256) :
    ((a <<< 24) ||| (b <<< 16) ||| (c <<< 8) ||| d) % 2 ^ 32 =
      a * 2 ^ 24 + b * 2 ^ 16 + c * 2 ^ 8 + d := by
  have s1 : 2 ^ 24 * a ||| 2 ^ 16 * b = 2 ^ 16 * (2 ^ 8 * a + b) := by
    rw [← Nat.mul_add_lt_is_or (by omega) a]
    omega
  have s2 : 2 ^ 16 * (2 ^ 8 * a + b) ||| 2 ^ 8 * c = 2 ^ 8 * (2 ^ 16 * a + 2 ^ 8 * b + c) := by
    rw [← Nat.mul_add_lt_is_or (by omega) (2 ^ 8 * a + b)]
    omega
  have s3 : 2 ^ 8 * (2 ^ 16 * a + 2 ^ 8 * b + c) ||| d
      = 2 ^ 8 * (2 ^ 16 * a + 2 ^ 8 * b + c) + d := by
    rw [← Nat.mul_add_lt_is_or (by omega) (2 ^ 16 * a + 2 ^ 8 * b + c)]
  rw [Nat.shiftLeft_eq, Nat.shiftLeft_eq, Nat.shiftLeft_eq, Nat.mul_comm a, Nat.mul_comm b,
    Nat.mul_comm c, s1, s2, s3]
  omega

theorem getElem?_getD_of_lt (bin : List Nat) (i : Nat) (h : i < bin.length) :
    bin[i]? = some (bin.getD i 0) := by
  rw [List.getD_eq_getElem?_getD, List.getElem?_eq_getElem h, Option.getD_some]

/-- The macro `_MC_UNPACK8TO32` on four bytes that are present. -/
theorem unpack32_bytes (c : List Nat) (i : Nat) (hlen : i + 3 < c.length)
    (hb : ∀ k, k < 4 → c.getD (i + k) 0 < 256) :
    _MC_UNPACK8TO32 c i = .ok (c.getD i 0 * 2 ^ 24 + c.getD (i + 1) 0 * 2 ^ 16 +
      c.getD (i + 2) 0 * 2 ^ 8 + c.getD (i + 3) 0) := by
  simp only [_MC_UNPACK8TO32, bind_ok_iff, pure_ok_iff, readAt_ok_iff]
  refine ⟨_, getElem?_getD_of_lt c i (by omega), _, getElem?_getD_of_lt c (i + 1) (by omega),
    _, getElem?_getD_of_lt c (i + 2) (by omega), _, getElem?_getD_of_lt c (i + 3) (by omega), ?_⟩
  exact unpack_bytes_value _ _ _ _ (hb 0 (by omega)) (hb 1 (by omega)) (hb 2 (by omega))
    (hb 3 (by omega))

/-- The glyph metrics a decoding call of `_mc_font_allocate` stores are the bytes at
offsets 1 to 4 of the asset. -/
theorem font_allocate_metrics (bin : List Nat) (fresh : Nat → Nat) (st st1 : mc_default_font)
    (hst : st.is_allocated = false)
    (hrun : _mc_font_allocate bin fresh st = .ok (0, st1)) :
    ∃ gw gh gs gn : Nat, bin[1]? = some gw ∧ bin[2]? = some gh ∧ bin[3]? = some gs ∧
      bin[4]? = some gn ∧ st1.glyph_width = gw ∧ st1.glyph_height = gh ∧
      st1.glyph_start = gs ∧ st1.glyph_num = gn := by
  simp only [_mc_font_allocate, hst, Bool.false_eq_true, if_false, bind_ok_iff] at hrun
  obtain ⟨tag, htag, hrun⟩ := hrun
  by_cases h1 : tag = 1
  · simp only [h1, ne_eq, not_true_eq_false, if_false, bind_ok_iff, pure_ok_iff,
      readAt_ok_iff] at hrun
    obtain ⟨gw, hgw, gh, hgh, gs, hgs, gn, hgn, w, _, total, _, d1, _, d2, _, hres⟩ := hrun
    have := (Prod.mk.inj hres).2
    subst this
    exact ⟨gw, gh, gs, gn, hgw, hgh, hgs, hgn, rfl, rfl, rfl, rfl⟩
  · simp only [h1, ne_eq, not_false_eq_true, if_true, pure_ok_iff] at hrun
    have := (Prod.mk.inj hrun).1
    omega

/-- The possible outcomes of a returning call of `_mc_font_allocate`. -/
theorem font_allocate_code (bin : List Nat) (fresh : Nat → Nat) (st st1 : mc_default_font)
    (r : Int) (hrun : _mc_font_allocate bin fresh st = .ok (r, st1)) :
    (st.is_allocated = true ∧ r = 0 ∧ st1 = st) ∨
    (st.is_allocated = false ∧ ∃ tag, bin[0]? = some tag ∧
      ((tag ≠ 1 ∧ r = -1 ∧ st1 = st) ∨ (tag = 1 ∧ r = 0 ∧ st1.is_allocated = true))) := by
  cases hst : st.is_allocated
  · right
    refine ⟨rfl, ?_⟩
    simp only [_mc_font_allocate, hst, Bool.false_eq_true, if_false, bind_ok_iff,
      readAt_ok_iff] at hrun
    obtain ⟨tag, htag, hrun⟩ := hrun
    refine ⟨tag, htag, ?_⟩
    by_cases h1 : tag = 1
    · right
      simp only [h1, ne_eq, not_true_eq_false, if_false, bind_ok_iff, pure_ok_iff] at hrun
      obtain ⟨gw, _, gh, _, gs, _, gn, _, w, _, total, _, d1, _, d2, _, hres⟩ := hrun
      have e1 := (Prod.mk.inj hres).1
      have e2 := (Prod.mk.inj hres).2
      subst e2
      exact ⟨h1, e1.symm, rfl⟩
    · left
      simp only [h1, ne_eq, not_false_eq_true, if_true, pure_ok_iff] at hrun
      exact ⟨h1, ((Prod.mk.inj hrun).1).symm, ((Prod.mk.inj hrun).2).symm⟩
  · left
    simp only [_mc_font_allocate, hst, if_true, pure_ok_iff] at hrun
    exact ⟨rfl, ((Prod.mk.inj hrun).1).symm, ((Prod.mk.inj hrun).2).symm⟩


set_option maxRecDepth 8000 in
theorem fontPayload_length : fontPayload.length = 2880 := by
  have h0 : fontPayload0.length = 256 := by decide
  have h1 : fontPayload1.length = 256 := by decide
  have h2 : fontPayload2.length = 256 := by decide
  have h3 : fontPayload3.length = 256 := by decide
  have h4 : fontPayload4.length = 256 := by decide
  have h5 : fontPayload5.length = 256 := by decide
  have h6 : fontPayload6.length = 256 := by decide
  have h7 : fontPayload7.length = 256 := by decide
  have h8 : fontPayload8.length = 256 := by decide
  have h9 : fontPayload9.length = 256 := by decide
  have h10 : fontPayload10.length = 256 := by decide
  have h11 : fontPayload11.length = 64 := by decide
  simp only [fontPayload, List.length_append, h0, h1, h2, h3, h4, h5, h6, h7, h8, h9,
    h10, h11]

theorem default_font_bin_length : _mc_default_font_bin.length = 2893 := by
  simp only [_mc_default_font_bin, List.length_append, fontPayload_length]
  rfl

/-- The first 13 bytes of the built-in asset are its header. -/
theorem default_font_bin_header (i : Nat) (hi : i < 13) :
    _mc_default_font_bin[i]? = fontHeader[i]? :=
  List.getElem?_append_left (by simpa [fontHeader] using hi)

theorem default_font_bin_getD (i : Nat) (hi : i < 13) :
    _mc_default_font_bin.getD i 0 = fontHeader.getD i 0 := by
  rw [List.getD_eq_getElem?_getD, List.getD_eq_getElem?_getD, default_font_bin_header i hi]

/-- C11: for a font asset with magic byte 1 (and a payload long enough for the call to
return), `_mc_font_allocate` stores as glyph width, height, start and count the bytes at
offsets 1, 2, 3, 4, as atlas width the big-endian value of bytes 5 to 8 and decodes as
many pixels as the big-endian value of bytes 9 to 12, for all byte values 0..255; for
the built-in asset these are 12, 15, 33, 128, 1536 and 23040. -/
theorem font_allocate_reads_header :
    (∀ (bin : List Nat) (fresh : Nat → Nat) (st : mc_default_font),
      st.is_allocated = false → bin[0]? = some 1 →
      (∀ i, i < 13 → bin.getD i 0 < 256) →
      13 + (bin.getD 9 0 * 2 ^ 24 + bin.getD 10 0 * 2 ^ 16 + bin.getD 11 0 * 2 ^ 8
        + bin.getD 12 0 + 7) / 8 ≤ bin.length →
      ∃ st1 d, _mc_font_allocate bin fresh st = .ok (0, st1) ∧
        st1.glyph_width = bin.getD 1 0 ∧ st1.glyph_height = bin.getD 2 0 ∧
        st1.glyph_start = bin.getD 3 0 ∧ st1.glyph_num = bin.getD 4 0 ∧
        st1.width = bin.getD 5 0 * 2 ^ 24 + bin.getD 6 0 * 2 ^ 16 + bin.getD 7 0 * 2 ^ 8
          + bin.getD 8 0 ∧
        st1.data = some d ∧
        d.length = bin.getD 9 0 * 2 ^ 24 + bin.getD 10 0 * 2 ^ 16 + bin.getD 11 0 * 2 ^ 8
          + bin.getD 12 0) ∧
    (∀ (fresh : Nat → Nat),
      ∃ st1 d, _mc_font_allocate _mc_default_font_bin fresh mc_default_font.initial
          = .ok (0, st1) ∧
        st1.glyph_width = 12 ∧ st1.glyph_height = 15 ∧ st1.glyph_start = 33 ∧
        st1.glyph_num = 128 ∧ st1.width = 1536 ∧ st1.data = some d ∧ d.length = 23040) := by
  have general : ∀ (bin : List Nat) (fresh : Nat → Nat) (st : mc_default_font),
      st.is_allocated = false → bin[0]? = some 1 →
      (∀ i, i < 13 → bin.getD i 0 < 256) →
      13 + (bin.getD 9 0 * 2 ^ 24 + bin.getD 10 0 * 2 ^ 16 + bin.getD 11 0 * 2 ^ 8
        + bin.getD 12 0 + 7) / 8 ≤ bin.length →
      ∃ st1 d, _mc_font_allocate bin fresh st = .ok (0, st1) ∧
        st1.glyph_width = bin.getD 1 0 ∧ st1.glyph_height = bin.getD 2 0 ∧
        st1.glyph_start = bin.getD 3 0 ∧ st1.glyph_num = bin.getD 4 0 ∧
        st1.width = bin.getD 5 0 * 2 ^ 24 + bin.getD 6 0 * 2 ^ 16 + bin.getD 7 0 * 2 ^ 8
          + bin.getD 8 0 ∧
        st1.data = some d ∧
        d.length = bin.getD 9 0 * 2 ^ 24 + bin.getD 10 0 * 2 ^ 16 + bin.getD 11 0 * 2 ^ 8
          + bin.getD 12 0 := by
    intro bin fresh st hst hmagic hbytes hpayload
    have hlen : 13 ≤ bin.length := by omega
    have hw := unpack32_bytes bin 5 (by omega) (fun k hk => hbytes (5 + k) (by omega))
    have ht := unpack32_bytes bin 9 (by omega) (fun k hk => hbytes (9 + k) (by omega))
    obtain ⟨st1, hrun⟩ := font_allocate_returns bin fresh st _ hst hmagic ht hpayload
    obtain ⟨total, d, htotal, _, hd, hun, _, hwidth⟩ :=
      font_allocate_inv bin fresh st st1 hst hrun
    obtain ⟨gw, gh, gs, gn, h1, h2, h3, h4, e1, e2, e3, e4⟩ :=
      font_allocate_metrics bin fresh st st1 hst hrun
    rw [ht] at htotal
    rw [hw] at hwidth
    rw [getElem?_getD_of_lt bin 1 (by omega)] at h1
    rw [getElem?_getD_of_lt bin 2 (by omega)] at h2
    rw [getElem?_getD_of_lt bin 3 (by omega)] at h3
    rw [getElem?_getD_of_lt bin 4 (by omega)] at h4
    cases h1
    cases h2
    cases h3
    cases h4
    refine ⟨st1, d, hrun, e1, e2, e3, e4, ?_, hd, ?_⟩
    · exact (Except.ok.inj hwidth).symm
    · rw [hun.1]
      exact (Except.ok.inj htotal).symm
  refine ⟨general, ?_⟩
  intro fresh
  have hb : ∀ i, i < 13 → _mc_default_font_bin.getD i 0 < 256 := by
    intro i hi
    rw [default_font_bin_getD i hi]
    interval_cases i <;> decide
  have hg : ∀ i, i < 13 → _mc_default_font_bin.getD i 0 = fontHeader.getD i 0 :=
    default_font_bin_getD
  have hmagic : _mc_default_font_bin[0]? = some 1 := by
    rw [default_font_bin_header 0 (by decide)]
    rfl
  obtain ⟨st1, d, hrun, e1, e2, e3, e4, e5, hd, e6⟩ :=
    general _mc_default_font_bin fresh mc_default_font.initial rfl hmagic hb (by
      rw [hg 9 (by decide), hg 10 (by decide), hg 11 (by decide), hg 12 (by decide),
        default_font_bin_length]
      decide)
  rw [hg 1 (by decide)] at e1
  rw [hg 2 (by decide)] at e2
  rw [hg 3 (by decide)] at e3
  rw [hg 4 (by decide)] at e4
  rw [hg 5 (by decide), hg 6 (by decide), hg 7 (by decide), hg 8 (by decide)] at e5
  rw [hg 9 (by decide), hg 10 (by decide), hg 11 (by decide), hg 12 (by decide)] at e6
  exact ⟨st1, d, hrun, e1, e2, e3, e4, e5, hd, e6⟩

/-- C12: `_mc_font_allocate` returns `-1` if and only if the font is not yet decoded and
byte 0 of the asset differs from 1, and a call that returns `-1` leaves the font state
(metrics, atlas width, decoded data, the is-allocated flag) as it was. -/
theorem font_allocate_fails_iff_bad_magic (bin : List Nat) (fresh : Nat → Nat)
    (st : mc_default_font) (tag : Nat) (h0 : bin[0]? = some tag) :
    ((∃ st1, _mc_font_allocate bin fresh st = .ok (-1, st1)) ↔
      (st.is_allocated = false ∧ tag ≠ 1)) ∧
    (∀ st1, _mc_font_allocate bin fresh st = .ok (-1, st1) → st1 = st) := by
  have key : ∀ st1, _mc_font_allocate bin fresh st = .ok (-1, st1) →
      st.is_allocated = false ∧ tag ≠ 1 ∧ st1 = st := by
    intro st1 hrun
    rcases font_allocate_code bin fresh st st1 (-1) hrun with h | ⟨hst, t, ht, h | h⟩
    · have := h.2.1
      omega
    · rw [h0] at ht
      cases ht
      exact ⟨hst, h.1, h.2.2⟩
    · have := h.2.1
      omega
  refine ⟨⟨?_, ?_⟩, fun st1 hrun => (key st1 hrun).2.2⟩
  · rintro ⟨st1, hrun⟩
    exact ⟨(key st1 hrun).1, (key st1 hrun).2.1⟩
  · rintro ⟨hst, htag⟩
    refine ⟨st, ?_⟩
    simp only [_mc_font_allocate, hst, Bool.false_eq_true, if_false, bind_ok_iff,
      readAt_ok_iff]
    exact ⟨tag, h0, by simp [htag, pure, Except.pure]⟩

/-- Witness of C12: the asset `badMagicBin` starts with 2; the call on the undecoded font
returns `-1` and leaves the font state as it was. -/
theorem font_allocate_fails_iff_bad_magic_witness :
    ((∃ st1, _mc_font_allocate badMagicBin (fun _ => 7) mc_default_font.initial
        = .ok (-1, st1)) ↔
      (mc_default_font.initial.is_allocated = false ∧ (2 : Nat) ≠ 1)) ∧
    (∀ st1, _mc_font_allocate badMagicBin (fun _ => 7) mc_default_font.initial
        = .ok (-1, st1) → st1 = mc_default_font.initial) :=
  font_allocate_fails_iff_bad_magic badMagicBin (fun _ => 7) mc_default_font.initial 2 rfl

/-- C13: after a call of `_mc_font_allocate` that returned 0, every further call, whatever
the asset and the contents of fresh memory, returns 0 and leaves the font state (glyph
metrics, atlas width, every decoded pixel) identical; nothing is unpacked again. -/
theorem font_allocate_idempotent (bin : List Nat) (fresh : Nat → Nat)
    (st st1 : mc_default_font)
    (hrun : _mc_font_allocate bin fresh st = .ok (0, st1)) :
    st1.is_allocated = true ∧
    ∀ (bin2 : List Nat) (fresh2 : Nat → Nat),
      _mc_font_allocate bin2 fresh2 st1 = .ok (0, st1) := by
  have halloc : st1.is_allocated = true := by
    rcases font_allocate_code bin fresh st st1 0 hrun with h | ⟨_, t, _, h | h⟩
    · rw [h.2.2]
      exact h.1
    · have := h.2.1
      omega
    · exact h.2.2
  refine ⟨halloc, ?_⟩
  intro bin2 fresh2
  simp [_mc_font_allocate, halloc, pure, Except.pure]

/-- Witness of C13: the font decoded from `sampleFontBin`; a second call, here on an
empty asset, returns 0 and changes nothing. -/
theorem font_allocate_idempotent_witness :
    sampleFont.is_allocated = true ∧
    ∀ (bin2 : List Nat) (fresh2 : Nat → Nat),
      _mc_font_allocate bin2 fresh2 sampleFont = .ok (0, sampleFont) :=
  font_allocate_idempotent sampleFontBin (fun _ => 7) mc_default_font.initial sampleFont
    (by decide)


/-- C14: for every glyph code whose index `code - glyphStart` is negative or greater than
`glyphCount`, `mc_blit_glyph_default` returns `-2` and leaves the console, hence every
pixel of the surface and its width and height, unchanged. -/
theorem blit_rejects_out_of_range (cfg : Config) (font : mc_default_font) (con : mc_console)
    (x y : Nat) (glyph : Int)
    (hrange : glyph - font.glyph_start < 0 ∨ glyph - font.glyph_start > font.glyph_num) :
    ∃ con1, mc_blit_glyph_default cfg font con x y glyph = .ok (-2, con1) ∧ con1 = con ∧
      (∀ k, surfacePixel con1 k = surfacePixel con k) ∧
      con1.width = con.width ∧ con1.height = con.height := by
  refine ⟨con, ?_, rfl, fun _ => rfl, rfl, rfl⟩
  unfold mc_blit_glyph_default
  simp only [hrange, if_true]
  rfl

/-- Witness of C14: with the sample font (`glyphStart = 97`) the code 96 has index `-1`. -/
theorem blit_rejects_out_of_range_witness :
    ∃ con1, mc_blit_glyph_default smallConfig sampleFont smallSurface 0 0 96
        = .ok (-2, con1) ∧ con1 = smallSurface ∧
      (∀ k, surfacePixel con1 k = surfacePixel smallSurface k) ∧
      con1.width = smallSurface.width ∧ con1.height = smallSurface.height :=
  blit_rejects_out_of_range smallConfig sampleFont smallSurface 0 0 96 (by decide)

/-! ## Claims about the editor operations -/

/-- The result of a backspace on the line `s`, stored with its NUL and followed by `r`. -/
theorem mc_input_key_backspace (con : mc_console) (s r : List Nat)
    (hsplit : con.instr = s ++ 0 :: r) (hnz : ∀ b, b ∈ s → b ≠ 0) (h64 : s.length < 2 ^ 64)
    (hp : 0 < con.inpos) (hpl : con.inpos ≤ s.length) :
    mc_input_key con .MC_KEY_BACKSPACE =
      .ok (0, { con with
        inpos := con.inpos - 1
        instr := s.take (con.inpos - 1) ++ s.drop con.inpos ++ 0 :: 0 :: r }) := by
  have hnul : 0 ∈ con.instr := by
    rw [hsplit]
    exact List.mem_append_right _ (List.mem_cons_self 0 r)
  have hcs : cstr con.instr = s := by
    rw [hsplit]
    exact cstr_append_zero s r hnz
  have hcount : (s.length + 2 ^ 64 - (con.inpos - 1)) % 2 ^ 64 = s.length - (con.inpos - 1) := by
    omega
  simp only [mc_input_key, hp, if_true, bind_ok_iff, pure_ok_iff]
  refine ⟨s.length, by rw [strlen_ok _ hnul, hcs], _, ?_, rfl⟩
  rw [hcount]
  have := memmove_backspace s r con.inpos hp hpl
  rw [← hsplit] at this
  exact this

/-- The key `MC_KEY_RIGHT` when the byte at the cursor is `byte`. -/
theorem mc_input_key_right (con : mc_console) (byte : Nat)
    (hread : con.instr[con.inpos]? = some byte) :
    mc_input_key con .MC_KEY_RIGHT =
      .ok (0, if byte ≠ 0 then { con with inpos := (con.inpos + 1) % 2 ^ 32 } else con) := by
  simp only [mc_input_key, bind, Except.bind, readAt, hread]
  by_cases hb : byte = 0
  · simp [hb, pure, Except.pure]
  · simp [hb, pure, Except.pure]

/-- C15: the invariant `0 ≤ cursor ≤ length(buffer)` with a NUL-terminated buffer is kept
by every editor operation: from a state that satisfies it, `mc_input_key` with any of the
five keys returns 0 and `mc_input_char` with any character returns, and the state after
the call satisfies the invariant again. -/
theorem editor_invariant_preserved (con : mc_console) (hinv : EditorInv con)
    (h64 : (cstr con.instr).length < 2 ^ 64) :
    (∀ key : mc_keys, ∃ con1, mc_input_key con key = .ok (0, con1) ∧ EditorInv con1) ∧
    (∀ c : Int, ∃ r con1, mc_input_char con c = .ok (r, con1) ∧ EditorInv con1) := by
  obtain ⟨hnul, hcur⟩ := hinv
  have hsplit := cstr_split con.instr hnul
  have hnz := cstr_no_zero con.instr
  generalize hs : cstr con.instr = s at hsplit hnz hcur h64
  generalize hr : con.instr.drop (s.length + 1) = r at hsplit
  have hinv0 : EditorInv con := ⟨hnul, by rw [hs]; exact hcur⟩
  constructor
  · intro key
    cases key with
    | MC_KEY_LEFT =>
      by_cases hp : con.inpos > 0
      · refine ⟨{ con with inpos := con.inpos - 1 }, by simp [mc_input_key, hp, pure, Except.pure],
          hnul, ?_⟩
        show con.inpos - 1 ≤ (cstr con.instr).length
        rw [hs]
        omega
      · exact ⟨con, by simp [mc_input_key, hp, pure, Except.pure], hinv0⟩
    | MC_KEY_RIGHT =>
      have hlt : con.inpos < con.instr.length := by
        rw [hsplit]
        simp only [List.length_append, List.length_cons]
        omega
      rw [mc_input_key_right con _ (List.getElem?_eq_getElem hlt)]
      by_cases hb : con.instr[con.inpos] = 0
      · exact ⟨con, by rw [if_neg (by simpa using hb)], hinv0⟩
      · refine ⟨{ con with inpos := (con.inpos + 1) % 2 ^ 32 }, by rw [if_pos hb], hnul, ?_⟩
        show (con.inpos + 1) % 2 ^ 32 ≤ (cstr con.instr).length
        rw [hs]
        have hne : con.inpos ≠ s.length := by
          intro heq
          apply hb
          have h0 : con.instr[con.inpos]? = some 0 := by
            rw [heq, hsplit, List.getElem?_append_right (Nat.le_refl _), Nat.sub_self]
            exact List.getElem?_cons_zero
          rw [List.getElem?_eq_getElem hlt] at h0
          exact Option.some.inj h0
        have hle : (con.inpos + 1) % 2 ^ 32 ≤ con.inpos + 1 := Nat.mod_le _ _
        omega
    | MC_KEY_UP => exact ⟨con, rfl, hinv0⟩
    | MC_KEY_DOWN => exact ⟨con, rfl, hinv0⟩
    | MC_KEY_BACKSPACE =>
      by_cases hp : con.inpos > 0
      · have hrun := mc_input_key_backspace con s r hsplit hnz h64 hp hcur
        refine ⟨_, hrun, ?_, ?_⟩
        · show (0 : Nat) ∈ _ ++ 0 :: 0 :: _
          exact List.mem_append_right _ (List.mem_cons_self 0 _)
        · show con.inpos - 1 ≤ (cstr (_ ++ 0 :: 0 :: _)).length
          rw [cstr_append_zero]
          · simp only [List.length_append, List.length_take, List.length_drop]
            omega
          · intro b hb
            rcases List.mem_append.1 hb with h1 | h1
            · exact hnz b (List.mem_of_mem_take h1)
            · exact hnz b (List.mem_of_mem_drop h1)
      · exact ⟨con, by simp [mc_input_key, hp, pure, Except.pure], hinv0⟩
  · intro c
    by_cases hc : c = 0
    · exact ⟨-1, con, by simp [mc_input_char, hc, pure, Except.pure], hinv0⟩
    · exact ⟨0, con, mc_input_char_nonzero con c hc, hinv0⟩

/-- Witness of C15: the line `"abc"` with the cursor at 1. -/
theorem editor_invariant_preserved_witness :
    (∀ key : mc_keys, ∃ con1, mc_input_key abcCursor1 key = .ok (0, con1) ∧ EditorInv con1) ∧
    (∀ c : Int, ∃ r con1, mc_input_char abcCursor1 c = .ok (r, con1) ∧ EditorInv con1) :=
  editor_invariant_preserved abcCursor1 ⟨by decide, by decide⟩ (by decide)


/-- The key `MC_KEY_RIGHT` on a line of `n ≥ 2^32` characters with the cursor at
`2^32 - 1`: the byte at the cursor is not NUL and the cursor becomes 0. -/
theorem key_right_wraps (n : Nat) (hn : 2 ^ 32 ≤ n) (con : mc_console)
    (hi : con.instr = List.replicate n 97 ++ [0]) (hp : con.inpos = 2 ^ 32 - 1) :
    EditorInv con ∧ con.instr[con.inpos]? = some 97 ∧
      mc_input_key con .MC_KEY_RIGHT = .ok (0, { con with inpos := 0 }) := by
  have hread : con.instr[con.inpos]? = some 97 := by
    rw [hi, hp, List.getElem?_append_left (by rw [List.length_replicate]; omega),
      List.getElem?_replicate, if_pos (by omega)]
  have hcs : cstr con.instr = List.replicate n 97 := by
    rw [hi]
    exact cstr_append_zero _ [] (fun b hb => by rw [List.eq_of_mem_replicate hb]; decide)
  refine ⟨⟨?_, ?_⟩, hread, ?_⟩
  · rw [hi]
    exact List.mem_append_right _ (List.mem_cons_self 0 [])
  · rw [hcs, List.length_replicate, hp]
    omega
  · rw [mc_input_key_right con 97 hread, if_pos (by decide), hp]
    rfl

/-- C16 (counterexample): `hugeLine` is an editor state (NUL-terminated line of `2^32`
characters, cursor `2^32 - 1` within it) whose byte at the cursor is not NUL; the key
`MC_KEY_RIGHT` returns 0 with the cursor at 0, not at `2^32`: `con->inpos++` wraps. -/
theorem key_right_wraps_at_unsigned_max :
    EditorInv hugeLine ∧ hugeLine.instr[hugeLine.inpos]? = some 97 ∧
    hugeLine.inpos = 2 ^ 32 - 1 ∧
    mc_input_key hugeLine .MC_KEY_RIGHT = .ok (0, { hugeLine with inpos := 0 }) ∧
    (0 : Nat) ≠ hugeLine.inpos + 1 :=
  ⟨(key_right_wraps (2 ^ 32) (Nat.le_refl _) hugeLine rfl rfl).1,
   (key_right_wraps (2 ^ 32) (Nat.le_refl _) hugeLine rfl rfl).2.1, rfl,
   (key_right_wraps (2 ^ 32) (Nat.le_refl _) hugeLine rfl rfl).2.2, by decide⟩

/-- C16 (amended): for every editor state whose cursor is below `2^32 - 1` (with `byte`
the byte of the buffer at the cursor), `mc_input_key(MC_KEY_RIGHT)` returns 0, leaves
the buffer and every other field unchanged, and increments the cursor by one if and
only if the byte at the cursor is not NUL, leaving it unchanged otherwise. -/
theorem key_right_moves_cursor (con : mc_console) (byte : Nat)
    (hread : con.instr[con.inpos]? = some byte) (hmax : con.inpos + 1 < 2 ^ 32) :
    ∃ con1, mc_input_key con .MC_KEY_RIGHT = .ok (0, con1) ∧
      con1 = { con with inpos := con1.inpos } ∧ con1.instr = con.instr ∧
      (byte ≠ 0 → con1.inpos = con.inpos + 1) ∧ (byte = 0 → con1.inpos = con.inpos) ∧
      (con1.inpos = con.inpos + 1 ↔ byte ≠ 0) := by
  rw [mc_input_key_right con byte hread]
  have hmod : (con.inpos + 1) % 2 ^ 32 = con.inpos + 1 := Nat.mod_eq_of_lt hmax
  by_cases hb : byte = 0
  · refine ⟨con, by rw [if_neg (by simpa using hb)], rfl, rfl, fun h => absurd hb h,
      fun _ => rfl, ?_⟩
    constructor
    · intro h
      omega
    · intro h
      exact absurd hb h
  · refine ⟨{ con with inpos := (con.inpos + 1) % 2 ^ 32 }, by rw [if_pos hb], rfl, rfl,
      fun _ => hmod, fun h => absurd h hb, ?_⟩
    exact ⟨fun _ => hb, fun _ => hmod⟩

/-- Witness of C16 (amended): on `"abc"` with the cursor at 1 the byte at the cursor is
`'b'` and the cursor moves to 2. -/
theorem key_right_moves_cursor_witness :
    ∃ con1, mc_input_key abcCursor1 .MC_KEY_RIGHT = .ok (0, con1) ∧
      con1 = { abcCursor1 with inpos := con1.inpos } ∧ con1.instr = abcCursor1.instr ∧
      ((98 : Nat) ≠ 0 → con1.inpos = abcCursor1.inpos + 1) ∧
      ((98 : Nat) = 0 → con1.inpos = abcCursor1.inpos) ∧
      (con1.inpos = abcCursor1.inpos + 1 ↔ (98 : Nat) ≠ 0) :=
  key_right_moves_cursor abcCursor1 98 (by decide) (by decide)

/-- C17: for every editor state, `mc_input_key(MC_KEY_LEFT)` returns 0 and decrements the
cursor by one if and only if the cursor is greater than 0, otherwise leaves it at 0 (no
wrap-around); the buffer and the other fields are unchanged; `MC_KEY_UP` and
`MC_KEY_DOWN` return 0 and change nothing. -/
theorem key_left_up_down (con : mc_console) :
    (∃ con1, mc_input_key con .MC_KEY_LEFT = .ok (0, con1) ∧
      con1 = { con with inpos := con1.inpos } ∧ con1.instr = con.instr ∧
      (0 < con.inpos → con1.inpos + 1 = con.inpos) ∧
      (con.inpos = 0 → con1.inpos = 0) ∧
      (con1.inpos + 1 = con.inpos ↔ 0 < con.inpos)) ∧
    mc_input_key con .MC_KEY_UP = .ok (0, con) ∧
    mc_input_key con .MC_KEY_DOWN = .ok (0, con) := by
  refine ⟨?_, rfl, rfl⟩
  by_cases hp : con.inpos > 0
  · refine ⟨{ con with inpos := con.inpos - 1 }, by simp [mc_input_key, hp, pure, Except.pure],
      rfl, rfl, ?_, ?_, ?_⟩
    · intro _
      show con.inpos - 1 + 1 = con.inpos
      omega
    · intro h
      omega
    · constructor
      · intro _
        exact hp
      · intro _
        show con.inpos - 1 + 1 = con.inpos
        omega
  · refine ⟨con, by simp [mc_input_key, hp, pure, Except.pure], rfl, rfl, fun h => absurd h hp,
      fun h => h, ?_⟩
    constructor
    · intro h
      omega
    · intro h
      exact absurd h hp

/-- C18: `mc_input_char` returns `-1` when the character is NUL and then leaves the
console (buffer, cursor, insert flag and every other field) exactly as before; for
every other character it returns 0, not the failure code. -/
theorem input_char_nul_fails_atomically (con : mc_console) (key : Int) :
    (key = 0 → mc_input_char con key = .ok (-1, con)) ∧
    (key ≠ 0 → mc_input_char con key = .ok (0, con) ∧
      ∀ con1, mc_input_char con key ≠ .ok (-1, con1)) := by
  constructor
  · intro hkey
    simp [mc_input_char, hkey, pure, Except.pure]
  · intro hkey
    refine ⟨mc_input_char_nonzero con key hkey, ?_⟩
    intro con1 h
    rw [mc_input_char_nonzero con key hkey] at h
    have := (Prod.mk.inj (Except.ok.inj h)).1
    omega


/-! ## Claims about the surface size and the bounds of a blit -/

/-- What a returning call of `mc_set_texture_size` leaves: the width and height are
recorded and the buffer has `(width * height) mod 2^32` pixel slots; the buffer pointer
is null exactly when the console had a buffer and 0 slots were requested. -/
theorem set_texture_size_inv (bin : List Nat) (fresh : Nat → Nat)
    (freshPixel : Nat → mc_pixel) (font font1 : mc_default_font) (con con1 : mc_console)
    (width height : Nat) (r : Int)
    (hrun : mc_set_texture_size bin fresh freshPixel font con width height
      = .ok (r, con1, font1)) :
    r = 0 ∧ con1.width = width ∧ con1.height = height ∧
      slotCount con1 = (width * height) % 2 ^ 32 ∧
      (con1.pixels = none ↔ (con.pixels ≠ none ∧ (width * height) % 2 ^ 32 = 0)) := by
  unfold mc_set_texture_size at hrun
  cases hp : con.pixels with
  | none =>
    simp only [hp, bind_ok_iff, pure_ok_iff] at hrun
    obtain ⟨res, _, hres⟩ := hrun
    have e1 := (Prod.mk.inj hres).1
    have e2 := (Prod.mk.inj (Prod.mk.inj hres).2).1
    subst e2
    refine ⟨e1.symm, rfl, rfl, ?_, ?_⟩
    · show (malloc freshPixel ((width * height) % 2 ^ 32)).length = _
      exact malloc_length _ _
    · constructor
      · intro h
        cases h
      · intro h
        exact absurd rfl h.1
  | some px =>
    simp only [hp, pure_ok_iff] at hrun
    have e1 := (Prod.mk.inj hrun).1
    have e2 := (Prod.mk.inj (Prod.mk.inj hrun).2).1
    subst e2
    by_cases hz : (width * height) % 2 ^ 32 = 0
    · refine ⟨e1.symm, rfl, rfl, ?_, ?_⟩
      · simp only [slotCount, hz, if_true]
      · simp [hz]
    · refine ⟨e1.symm, rfl, rfl, ?_, ?_⟩
      · simp only [slotCount, hz, if_false, List.length_append, List.length_take,
          List.length_drop, malloc_length]
        omega
      · simp [hz]

/-- C19 (the code at the failing input, and what holds in general): on the fresh
console `mc_set_texture_size(con, 65536, 65536)` returns 0 and records width and
height 65536, but the product `65536 * 65536 = 2^32` is computed in `unsigned`
arithmetic and is 0, so the pixel buffer has 0 slots and not `2^32`; on a console that
already has a buffer the same call leaves the null pointer. In general a returning call
records the width and the height and leaves a buffer of `(width * height) mod 2^32`
slots (the null pointer when there was a buffer and that number is 0), which is
`width * height` exactly when the product is below `2^32`. -/
theorem set_texture_size_wraps_product :
    (mc_set_texture_size sampleFontBin (fun _ => 7) (fun _ => tintPixel)
        mc_default_font.initial freshConsole 65536 65536
      = .ok (0, { freshConsole with pixels := some [], width := 65536, height := 65536 },
          sampleFont) ∧
      ([] : List mc_pixel).length ≠ 65536 * 65536 ∧
      mc_set_texture_size sampleFontBin (fun _ => 7) (fun _ => tintPixel)
        sampleFont smallSurface 65536 65536
      = .ok (0, { smallSurface with pixels := none, width := 65536, height := 65536 },
          sampleFont)) ∧
    (∀ (bin : List Nat) (fresh : Nat → Nat) (freshPixel : Nat → mc_pixel)
        (font font1 : mc_default_font) (con con1 : mc_console) (width height : Nat) (r : Int),
      mc_set_texture_size bin fresh freshPixel font con width height = .ok (r, con1, font1) →
      r = 0 ∧ con1.width = width ∧ con1.height = height ∧
      slotCount con1 = (width * height) % 2 ^ 32 ∧
      (con1.pixels = none ↔ (con.pixels ≠ none ∧ (width * height) % 2 ^ 32 = 0)) ∧
      (slotCount con1 = width * height ↔ width * height < 2 ^ 32)) := by
  refine ⟨⟨by decide, by decide, by decide⟩, ?_⟩
  intro bin fresh freshPixel font font1 con con1 width height r hrun
  obtain ⟨h0, h1, h2, hlen, hnull⟩ :=
    set_texture_size_inv bin fresh freshPixel font font1 con con1 width height r hrun
  refine ⟨h0, h1, h2, hlen, hnull, ?_⟩
  rw [hlen]
  constructor
  · intro h
    have := Nat.mod_lt (width * height) (show 0 < 2 ^ 32 by norm_num)
    omega
  · intro h
    exact Nat.mod_eq_of_lt h

/-- The index the code computes for a read of the decoded bitmap is at most the index
`glyphIndex*glyphWidth + j + i*atlasWidth`. -/
theorem atlasIndex_code_le (font : mc_default_font) (c : Int) (i j : Nat)
    (hc : 0 ≤ c * font.glyph_width) :
    ((c * font.glyph_width + (j : Int) + (((i * font.width) % 2 ^ 32 : Nat) : Int)) % 2 ^ 32).toNat
      ≤ atlasIndex font c i j := by
  unfold atlasIndex
  omega

/-- The index the code computes for a write to the surface is at most the index
`(x+j) + (y+i)*width`. -/
theorem surfaceIndex_code_le (con : mc_console) (x y i j : Nat) :
    (x + j + (((y + i) % 2 ^ 32) * con.width) % 2 ^ 32) % 2 ^ 32 ≤ surfaceIndex con x y i j := by
  unfold surfaceIndex
  have h1 : (y + i) % 2 ^ 32 * con.width ≤ (y + i) * con.width :=
    Nat.mul_le_mul_right _ (Nat.mod_le _ _)
  have h2 : ((y + i) % 2 ^ 32 * con.width) % 2 ^ 32 ≤ (y + i) % 2 ^ 32 * con.width :=
    Nat.mod_le _ _
  have h3 : (x + j + ((y + i) % 2 ^ 32 * con.width) % 2 ^ 32) % 2 ^ 32
      ≤ x + j + ((y + i) % 2 ^ 32 * con.width) % 2 ^ 32 := Nat.mod_le _ _
  omega

/-- The glyph cell of an index below `glyphCount` lies inside a bitmap that holds
`glyphCount` glyphs per row and `glyphHeight` rows. -/
theorem atlasIndex_lt (font : mc_default_font) (c : Int) (i j total : Nat)
    (hc0 : 0 ≤ c) (hc1 : c < font.glyph_num)
    (hrow : font.glyph_num * font.glyph_width ≤ (font.width : Int))
    (hall : font.width * font.glyph_height.toNat ≤ total)
    (hi : i < font.glyph_height.toNat) (hj : j < font.glyph_width.toNat) :
    atlasIndex font c i j < total := by
  unfold atlasIndex
  have hgw : 0 ≤ font.glyph_width := by omega
  have h1 : (c + 1) * font.glyph_width ≤ font.glyph_num * font.glyph_width :=
    Int.mul_le_mul_of_nonneg_right (by omega) hgw
  have h2 : (c + 1) * font.glyph_width = c * font.glyph_width + font.glyph_width := by ring
  have h3 : 0 ≤ c * font.glyph_width := Int.mul_nonneg hc0 hgw
  have h4 : (i + 1) * font.width ≤ font.glyph_height.toNat * font.width :=
    Nat.mul_le_mul_right _ (by omega)
  have h5 : (i + 1) * font.width = i * font.width + font.width := by ring
  have h6 : font.glyph_height.toNat * font.width = font.width * font.glyph_height.toNat :=
    Nat.mul_comm _ _
  omega

/-- A blit whose reads and writes are all inside the bitmap and the surface returns 0. -/
theorem blit_returns (cfg : Config) (font : mc_default_font) (con : mc_console) (x y : Nat)
    (glyph : Int) (d : List Nat) (px : List mc_pixel)
    (hd : font.data = some d) (hpx : con.pixels = some px)
    (hc0 : 0 ≤ glyph - font.glyph_start) (hc1 : glyph - font.glyph_start ≤ font.glyph_num)
    (hR : ∀ i j, i < font.glyph_height.toNat → j < font.glyph_width.toNat →
      atlasIndex font (glyph - font.glyph_start) i j < d.length)
    (hW : ∀ i j, i < font.glyph_height.toNat → j < font.glyph_width.toNat →
      surfaceIndex con x y i j < px.length) :
    ∃ con1, mc_blit_glyph_default cfg font con x y glyph = .ok (0, con1) := by
  have hrange : ¬ (glyph - font.glyph_start < 0 ∨ glyph - font.glyph_start > font.glyph_num) := by
    omega
  have hloops : ∃ t, forLoop (fun i t =>
        forLoop (fun j u => blitPixel cfg font x ((glyph - font.glyph_start) * font.glyph_width) i
          ((((y + i) % 2 ^ 32) * t.width) % 2 ^ 32) j u) font.glyph_width.toNat t)
        font.glyph_height.toNat con = .ok t ∧
      (t.width = con.width ∧ ∃ q, t.pixels = some q ∧ q.length = px.length) := by
    refine forLoop_total _ (fun _ t => t.width = con.width ∧ ∃ q, t.pixels = some q ∧
      q.length = px.length) _ con ⟨rfl, px, hpx, rfl⟩ ?_
    intro i hi t ht
    refine forLoop_total _ (fun _ u => u.width = con.width ∧ ∃ q, u.pixels = some q ∧
      q.length = px.length) _ t ht ?_
    intro j hj u hu
    obtain ⟨huw, q, hq, hql⟩ := hu
    have hgw : 0 ≤ font.glyph_width := by omega
    have hcw : 0 ≤ (glyph - font.glyph_start) * font.glyph_width := Int.mul_nonneg hc0 hgw
    have hr := Nat.lt_of_le_of_lt (atlasIndex_code_le font _ i j hcw) (hR i j hi hj)
    have hw := Nat.lt_of_le_of_lt (surfaceIndex_code_le con x y i j) (hW i j hi hj)
    rw [← ht.1] at hw
    rw [← hql] at hw
    have hb : ∃ b, fontPixel font
        (((glyph - font.glyph_start) * font.glyph_width + (j : Int)
          + (((i * font.width) % 2 ^ 32 : Nat) : Int)) % 2 ^ 32).toNat = .ok b := by
      simp only [fontPixel, hd, readAt_ok_iff]
      exact ⟨_, List.getElem?_eq_getElem hr⟩
    obtain ⟨b, hb⟩ := hb
    refine ⟨_, (blitPixel_ok_iff cfg font x _ i _ j u _).2 ⟨b, q, hb, hq, hw, rfl⟩, huw, ?_⟩
    exact ⟨_, rfl, by simpa using hql⟩
  obtain ⟨t, ht, _⟩ := hloops
  refine ⟨t, ?_⟩
  unfold mc_blit_glyph_default
  simp only [hrange, if_false, bind_ok_iff, pure_ok_iff]
  exact ⟨t, ht, rfl⟩

/-- C20 (the code at the failing input, and what holds below it): the sample font
satisfies `atlasWidth ≥ glyphCount*glyphWidth` and `totalBits ≥ atlasWidth*glyphHeight`,
the 2x2 surface holds `width*height` pixels, the cell at `(0, 0)` fits, and the code
`glyphStart + glyphCount = 105` passes the range check; the first read of the loop has
index `start + 0 + 0*atlasWidth = 8`, which is not below `totalBits = 8`. For every
code whose index is below `glyphCount` the claim holds: every index read is below
`totalBits`, every index written is below `width*height`, and the call returns 0. -/
theorem blit_reads_past_bitmap_at_glyph_count :
    ((sampleFont.glyph_num * sampleFont.glyph_width ≤ (sampleFont.width : Int) ∧
      sampleFont.width * sampleFont.glyph_height.toNat ≤ 8 ∧
      sampleFont.data = some [0, 1, 0, 0, 1, 1, 0, 1] ∧
      surfacePixel smallSurface 3 = some tintPixel ∧ surfacePixel smallSurface 4 = none ∧
      smallSurface.width * smallSurface.height = 4 ∧
      0 + sampleFont.glyph_width.toNat ≤ smallSurface.width ∧
      0 + sampleFont.glyph_height.toNat ≤ smallSurface.height) ∧
     ¬ ((105 : Int) - sampleFont.glyph_start < 0 ∨
        (105 : Int) - sampleFont.glyph_start > sampleFont.glyph_num) ∧
     atlasIndex sampleFont (105 - sampleFont.glyph_start) 0 0 = 8 ∧
     fontPixel sampleFont (atlasIndex sampleFont (105 - sampleFont.glyph_start) 0 0)
       = .error .outOfBounds ∧
     mc_blit_glyph_default smallConfig sampleFont smallSurface 0 0 105
       = .error .outOfBounds) ∧
    (∀ (cfg : Config) (font : mc_default_font) (con : mc_console) (x y : Nat) (glyph : Int)
        (d : List Nat) (px : List mc_pixel),
      font.data = some d → con.pixels = some px → px.length = con.width * con.height →
      font.glyph_num * font.glyph_width ≤ (font.width : Int) →
      font.width * font.glyph_height.toNat ≤ d.length →
      x + font.glyph_width.toNat ≤ con.width → y + font.glyph_height.toNat ≤ con.height →
      0 ≤ glyph - font.glyph_start → glyph - font.glyph_start < font.glyph_num →
      (∀ i j, i < font.glyph_height.toNat → j < font.glyph_width.toNat →
        atlasIndex font (glyph - font.glyph_start) i j < d.length ∧
        surfaceIndex con x y i j < con.width * con.height) ∧
      ∃ con1, mc_blit_glyph_default cfg font con x y glyph = .ok (0, con1)) := by
  refine ⟨⟨⟨by decide, by decide, by decide, by decide, by decide, by decide, by decide,
    by decide⟩, by decide, by decide, by decide, by decide⟩, ?_⟩
  intro cfg font con x y glyph d px hd hpx hlen hrow hall hx hy hc0 hc1
  have hR : ∀ i j, i < font.glyph_height.toNat → j < font.glyph_width.toNat →
      atlasIndex font (glyph - font.glyph_start) i j < d.length := fun i j hi hj =>
    atlasIndex_lt font _ i j d.length hc0 hc1 hrow hall hi hj
  have hW : ∀ i j, i < font.glyph_height.toNat → j < font.glyph_width.toNat →
      surfaceIndex con x y i j < con.width * con.height := fun i j hi hj =>
    surfaceIndex_lt con x y i j _ _ hx hy hi hj
  refine ⟨fun i j hi hj => ⟨hR i j hi hj, hW i j hi hj⟩, ?_⟩
  exact blit_returns cfg font con x y glyph d px hd hpx hc0 (by omega) hR
    (fun i j hi hj => by rw [hlen]; exact hW i j hi hj)


/-! ## Claims about the built-in asset, the fresh console and the undecoded font -/

/-- The header of the built-in asset, as `_mc_font_allocate` reads it. -/
theorem default_font_header_values :
    _mc_default_font_bin[0]? = some 1 ∧ _mc_default_font_bin[1]? = some 12 ∧
    _mc_default_font_bin[2]? = some 15 ∧ _mc_default_font_bin[3]? = some 33 ∧
    _mc_default_font_bin[4]? = some 128 ∧
    _MC_UNPACK8TO32 _mc_default_font_bin 5 = .ok 1536 ∧
    _MC_UNPACK8TO32 _mc_default_font_bin 9 = .ok 23040 := by
  have hb : ∀ i, i < 13 → _mc_default_font_bin.getD i 0 < 256 := by
    intro i hi
    rw [default_font_bin_getD i hi]
    interval_cases i <;> decide
  have h5 := unpack32_bytes _mc_default_font_bin 5 (by rw [default_font_bin_length]; decide)
    (fun k hk => hb (5 + k) (by omega))
  have h9 := unpack32_bytes _mc_default_font_bin 9 (by rw [default_font_bin_length]; decide)
    (fun k hk => hb (9 + k) (by omega))
  rw [default_font_bin_getD 5 (by decide), default_font_bin_getD (5 + 1) (by decide),
    default_font_bin_getD (5 + 2) (by decide), default_font_bin_getD (5 + 3) (by decide)] at h5
  rw [default_font_bin_getD 9 (by decide), default_font_bin_getD (9 + 1) (by decide),
    default_font_bin_getD (9 + 2) (by decide), default_font_bin_getD (9 + 3) (by decide)] at h9
  refine ⟨?_, ?_, ?_, ?_, ?_, h5, h9⟩
  · rw [default_font_bin_header 0 (by decide)]; rfl
  · rw [default_font_bin_header 1 (by decide)]; rfl
  · rw [default_font_bin_header 2 (by decide)]; rfl
  · rw [default_font_bin_header 3 (by decide)]; rfl
  · rw [default_font_bin_header 4 (by decide)]; rfl

/-- C21: the built-in asset is well-formed for the decoder: its magic byte is 1, its
header has `atlasWidth = glyphCount * glyphWidth` and `totalBits = atlasWidth *
glyphHeight`, its length 2893 equals `13 + ceil(totalBits / 8)`, every payload index
`i + 13` read by the decoding loop is inside the array, every decoded index written is
below `totalBits`, and the decoding call returns 0 without a fault. -/
theorem default_font_is_well_formed :
    _mc_default_font_bin[0]? = some 1 ∧
    (_mc_default_font_bin[1]? = some 12 ∧ _mc_default_font_bin[2]? = some 15 ∧
      _mc_default_font_bin[4]? = some 128 ∧
      _MC_UNPACK8TO32 _mc_default_font_bin 5 = .ok 1536 ∧
      _MC_UNPACK8TO32 _mc_default_font_bin 9 = .ok 23040 ∧
      1536 = 128 * 12 ∧ 23040 = 1536 * 15) ∧
    (_mc_default_font_bin.length = 2893 ∧ 2893 = 13 + (23040 + 7) / 8 ∧ 23040 % 8 = 0) ∧
    (∀ i j, i < 23040 >>> 3 → j < 8 →
      (i + 13) % 2 ^ 32 < _mc_default_font_bin.length ∧ (i * 8 + j) % 2 ^ 32 < 23040) ∧
    (∀ (fresh : Nat → Nat),
      ∃ st1 d, _mc_font_allocate _mc_default_font_bin fresh mc_default_font.initial
          = .ok (0, st1) ∧ st1.data = some d ∧ d.length = 23040 ∧
        (st1.width : Int) = st1.glyph_num * st1.glyph_width ∧
        d.length = st1.width * st1.glyph_height.toNat) := by
  obtain ⟨h0, h1, h2, h3, h4, h5, h9⟩ := default_font_header_values
  refine ⟨h0, ⟨h1, h2, h4, h5, h9, by decide, by decide⟩,
    ⟨default_font_bin_length, by decide, by decide⟩, ?_, ?_⟩
  · intro i j hi hj
    rw [default_font_bin_length]
    have h : (23040 : Nat) >>> 3 = 2880 := by decide
    rw [h] at hi
    omega
  · intro fresh
    obtain ⟨st1, hrun⟩ := font_allocate_returns _mc_default_font_bin fresh
      mc_default_font.initial 23040 rfl h0 h9 (by rw [default_font_bin_length])
    obtain ⟨total, d, htotal, _, hd, hun, _, hwidth⟩ :=
      font_allocate_inv _mc_default_font_bin fresh mc_default_font.initial st1 rfl hrun
    obtain ⟨gw, gh, gs, gn, g1, g2, g3, g4, e1, e2, e3, e4⟩ :=
      font_allocate_metrics _mc_default_font_bin fresh mc_default_font.initial st1 rfl hrun
    rw [h9] at htotal
    rw [h5] at hwidth
    rw [h1] at g1
    rw [h2] at g2
    rw [h4] at g4
    cases htotal
    cases g1
    cases g2
    cases g4
    have hw : st1.width = 1536 := (Except.ok.inj hwidth).symm
    refine ⟨st1, d, hrun, hd, hun.1, ?_, ?_⟩
    · rw [hw, e1, e4]
      decide
    · rw [hun.1, hw, e2]
      decide

/-- On a console whose cursor is 0 and whose first input byte is NUL every input call
returns and leaves the console as it is. -/
theorem inputEvent_on_empty_line (con : mc_console) (hpos : con.inpos = 0)
    (hnul : con.instr[0]? = some 0) (e : InputEvent) :
    ∃ r, inputEvent con e = .ok (r, con) := by
  cases e with
  | key k =>
    cases k with
    | MC_KEY_LEFT => exact ⟨0, by simp [inputEvent, mc_input_key, hpos, pure, Except.pure]⟩
    | MC_KEY_RIGHT =>
      refine ⟨0, ?_⟩
      have hread : con.instr[con.inpos]? = some 0 := by rw [hpos]; exact hnul
      show mc_input_key con .MC_KEY_RIGHT = _
      rw [mc_input_key_right con 0 hread, if_neg (by decide)]
    | MC_KEY_UP => exact ⟨0, rfl⟩
    | MC_KEY_DOWN => exact ⟨0, rfl⟩
    | MC_KEY_BACKSPACE =>
      exact ⟨0, by simp [inputEvent, mc_input_key, hpos, pure, Except.pure]⟩
  | char c =>
    by_cases hc : c = 0
    · exact ⟨-1, by simp [inputEvent, mc_input_char, hc, pure, Except.pure]⟩
    · exact ⟨0, mc_input_char_nonzero con c hc⟩

theorem inputAll_on_empty_line (con : mc_console) (hpos : con.inpos = 0)
    (hnul : con.instr[0]? = some 0) (events : List InputEvent) :
    inputAll con events = .ok con := by
  induction events with
  | nil => rfl
  | cons e rest ih =>
    obtain ⟨r, hr⟩ := inputEvent_on_empty_line con hpos hnul e
    simp only [inputAll, bind_ok_iff]
    exact ⟨(r, con), hr, ih⟩

/-- C22: for every finite sequence of `mc_input_key` and `mc_input_char` calls on a
console freshly initialised by `mc_create` (with `MC_MAX_INPUT_LENGTH > 0` where the
input buffer is a static array), every call returns and afterwards the console is as
`mc_create` left it: the input buffer is the empty string and the cursor is 0. -/
theorem input_line_stays_empty (cfg : Config) (events : List InputEvent)
    (hlen : cfg.dynamicArrays = false → 0 < cfg.MC_MAX_INPUT_LENGTH) :
    ∃ con, inputAll (mc_create cfg).2 events = .ok con ∧ con = (mc_create cfg).2 ∧
      cstr con.instr = [] ∧ con.inpos = 0 := by
  have hpos : (mc_create cfg).2.inpos = 0 := by
    unfold mc_create
    split <;> rfl
  have hnul : (mc_create cfg).2.instr[0]? = some 0 := by
    cases hd : cfg.dynamicArrays
    · have hl := hlen hd
      simp only [mc_create, hd, Bool.false_eq_true, if_false]
      rw [List.getElem?_replicate, if_pos hl]
    · simp [mc_create, hd]
  refine ⟨(mc_create cfg).2, inputAll_on_empty_line _ hpos hnul events, rfl, ?_, hpos⟩
  have hne : (mc_create cfg).2.instr ≠ [] := by
    intro h
    rw [h] at hnul
    cases hnul
  cases hl : (mc_create cfg).2.instr with
  | nil => exact absurd hl hne
  | cons a t =>
    rw [hl] at hnul
    have ha : a = 0 := by simpa using hnul
    simp [cstr, ha]

/-- Witness of C22: the events of `sampleEvents` on the fresh console of `smallConfig`. -/
theorem input_line_stays_empty_witness :
    ∃ con, inputAll (mc_create smallConfig).2 sampleEvents = .ok con ∧
      con = (mc_create smallConfig).2 ∧ cstr con.instr = [] ∧ con.inpos = 0 :=
  input_line_stays_empty smallConfig sampleEvents (fun _ => by decide)

/-- C23: before the font is decoded (all font variables zero, the data pointer null),
`mc_blit_glyph_default` returns `-2` for every glyph code other than 0 and returns 0
for code 0 after zero passes of the loop (`glyph_height` is 0), in both cases with the
console unchanged; it returns also on a console without a pixel buffer, so the decoded
bitmap is not read and the surface is not written. -/
theorem blit_before_decode (cfg : Config) (con : mc_console) (x y : Nat) (glyph : Int) :
    mc_default_font.initial.data = none ∧ mc_default_font.initial.glyph_height.toNat = 0 ∧
    (glyph ≠ 0 →
      mc_blit_glyph_default cfg mc_default_font.initial con x y glyph = .ok (-2, con)) ∧
    (glyph = 0 →
      mc_blit_glyph_default cfg mc_default_font.initial con x y glyph = .ok (0, con)) := by
  refine ⟨rfl, rfl, ?_, ?_⟩
  · intro hg
    have hrange : glyph - mc_default_font.initial.glyph_start < 0 ∨
        glyph - mc_default_font.initial.glyph_start > mc_default_font.initial.glyph_num := by
      simp only [mc_default_font.initial]
      omega
    unfold mc_blit_glyph_default
    simp only [hrange, if_true]
    rfl
  · intro hg
    subst hg
    rfl

/-- C24 (the code at the failing input): with `MC_DYNAMIC_ARRAYS` the block for the name
is `malloc(strlen(cmd))`, which has `strlen(cmd)` bytes, and `strcpy` then writes
`strlen(cmd) + 1` bytes into it: for every name the NUL is one byte past the
allocation. For `"foo"` the block has 3 bytes and the copy needs 4. The call of
`mc_map` on the fresh console faults (already at the handler write of line 175). -/
theorem map_dynamic_name_block_too_small :
    (strlen [102, 111, 111, 0] = .ok 3 ∧
      (malloc (fun _ => (0 : Nat)) 3).length = 3 ∧
      strcpy (malloc (fun _ => 0) 3) [102, 111, 111, 0] = .error .outOfBounds ∧
      mc_map dynamicConfig (mc_create dynamicConfig).2 [102, 111, 111, 0] 1
        = .error .outOfBounds) ∧
    (∀ (cmd : List Nat) (n : Nat) (fresh : Nat → Nat), strlen cmd = .ok n →
      (malloc fresh n).length = n ∧ (malloc fresh n).length < n + 1 ∧
      strcpy (malloc fresh n) cmd = .error .outOfBounds) := by
  refine ⟨⟨by decide, by decide, by decide, by decide⟩, ?_⟩
  intro cmd n fresh hn
  refine ⟨malloc_length fresh n, by rw [malloc_length]; omega, ?_⟩
  simp only [strcpy, hn, bind, Except.bind, malloc_length]
  rw [if_neg (by omega)]


/-- A sequence of registrations of names shorter than `MC_MAX_COMMAND_LENGTH` that fits
the registry returns 0 at every call, with static arrays. -/
theorem mapAll_returns (cfg : Config) (hfixed : cfg.dynamicArrays = false)
    (hcap : cfg.MC_MAX_COMMANDS < 2 ^ 32) :
    ∀ (regs : List (List Nat × Nat)) (con : mc_console), RegistryShape cfg con →
      con.ncmds + regs.length ≤ cfg.MC_MAX_COMMANDS →
      (∀ r, r ∈ regs → 0 ∈ r.1 ∧ (cstr r.1).length < cfg.MC_MAX_COMMAND_LENGTH) →
      ∃ con1, mapAll cfg con regs = some con1 := by
  intro regs
  induction regs with
  | nil =>
    intro con _ _ _
    exact ⟨con, rfl⟩
  | cons reg rest ih =>
    intro con hshape hroom hnames
    obtain ⟨cmd, func⟩ := reg
    have hn := hnames (cmd, func) (List.mem_cons_self _ _)
    simp only [List.length_cons] at hroom
    obtain ⟨con2, hrun⟩ :=
      mc_map_fixed_returns cfg con cmd func hfixed hshape (by omega) hn.1 hn.2
    obtain ⟨hshape2, hcount, _⟩ := mc_map_step cfg con con2 cmd func hfixed hcap hshape hrun
    obtain ⟨con1, h1⟩ := ih con2 hshape2 (by omega)
      (fun r hr => hnames r (List.mem_cons_of_mem _ hr))
    refine ⟨con1, ?_⟩
    simp only [mapAll, hrun, if_true]
    exact h1

/-- A call of `mc_map` on the block that has room for the handler and for the bytes of
the name before the end of the array returns 0; the bytes of the name, NUL included,
are written from the first byte of row `ncmds` on. -/
theorem mc_map_block_ok (cfg : Config) (reg : mc_registry) (cmd : List Nat) (func : Nat)
    (hroom : reg.ncmds < cfg.MC_MAX_COMMANDS) (hf : reg.ncmds < reg.cmdfuncs.length)
    (hnul : 0 ∈ cmd)
    (hfit : reg.ncmds * cfg.MC_MAX_COMMAND_LENGTH + (cstr cmd).length + 1
      ≤ reg.cmds.length) :
    mc_map_block cfg reg cmd func = .ok (0,
      { cmdfuncs := reg.cmdfuncs.set reg.ncmds func,
        cmds := reg.cmds.take (reg.ncmds * cfg.MC_MAX_COMMAND_LENGTH) ++
          (cmd.take ((cstr cmd).length + 1) ++
            (reg.cmds.drop (reg.ncmds * cfg.MC_MAX_COMMAND_LENGTH)).drop
              ((cstr cmd).length + 1)),
        ncmds := (reg.ncmds + 1) % 2 ^ 32 }) := by
  unfold mc_map_block
  rw [if_neg (by intro h; exact h.2 hroom), if_neg (by omega)]
  have hw : writeAt reg.cmdfuncs reg.ncmds func = .ok (reg.cmdfuncs.set reg.ncmds func) := by
    simp [writeAt, hf]
  have hc : strcpy (reg.cmds.drop (reg.ncmds * cfg.MC_MAX_COMMAND_LENGTH)) cmd
      = .ok (cmd.take ((cstr cmd).length + 1) ++
          (reg.cmds.drop (reg.ncmds * cfg.MC_MAX_COMMAND_LENGTH)).drop
            ((cstr cmd).length + 1)) := by
    unfold strcpy
    rw [strlen_ok cmd hnul]
    show (if _ then _ else _) = _
    rw [if_pos (by rw [List.length_drop]; omega)]
    rfl
  rw [hw]
  show (do
    let rest ← strcpy (reg.cmds.drop (reg.ncmds * cfg.MC_MAX_COMMAND_LENGTH)) cmd
    pure (0, _)) = _
  rw [hc]
  rfl

set_option maxRecDepth 20000 in
/-- The two registrations of the failing input on a block of at least 66 bytes: both
calls return 0 and the second name starts where the NUL of the first was written. -/
theorem block_two_names (b : List Nat) (hb : 66 ≤ b.length) :
    mapAllBlock (defaultConfig .RGB)
        { cmdfuncs := List.replicate 128 0, cmds := b, ncmds := 0 }
        [(name64, 1), ([98, 0], 2)]
      = some { cmdfuncs := ((List.replicate 128 0).set 0 1).set 1 2,
               cmds := List.replicate 64 97 ++ ([98, 0] ++ b.drop 66), ncmds := 2 } := by
  have hlen : (cstr name64).length = 64 := by decide
  have hlen2 : (cstr [98, 0]).length = 1 := by decide
  have h1 : mc_map_block (defaultConfig .RGB)
      { cmdfuncs := List.replicate 128 0, cmds := b, ncmds := 0 } name64 1
      = .ok (0, { cmdfuncs := (List.replicate 128 0).set 0 1,
                  cmds := b.take (0 * 64) ++ (name64.take ((cstr name64).length + 1) ++
                    (b.drop (0 * 64)).drop ((cstr name64).length + 1)),
                  ncmds := (0 + 1) % 2 ^ 32 }) :=
    mc_map_block_ok (defaultConfig .RGB)
      { cmdfuncs := List.replicate 128 0, cmds := b, ncmds := 0 } name64 1
      (show 0 < 128 by decide) (show 0 < (List.replicate 128 0).length by simp)
      (by decide)
      (by
        show 0 * 64 + (cstr name64).length + 1 ≤ b.length
        omega)
  have e1 : b.take (0 * 64) ++ (name64.take ((cstr name64).length + 1) ++
      (b.drop (0 * 64)).drop ((cstr name64).length + 1))
      = List.replicate 64 97 ++ (0 :: b.drop 65) := by
    rw [hlen, Nat.zero_mul, List.take_zero, List.drop_zero, List.nil_append,
      List.take_of_length_le (show name64.length ≤ 64 + 1 by decide)]
    show (List.replicate 64 97 ++ [0]) ++ b.drop 65 = _
    rw [List.append_assoc]
    rfl
  rw [e1] at h1
  have h2 : mc_map_block (defaultConfig .RGB)
      { cmdfuncs := (List.replicate 128 0).set 0 1,
        cmds := List.replicate 64 97 ++ (0 :: b.drop 65), ncmds := 1 } [98, 0] 2
      = .ok (0, { cmdfuncs := ((List.replicate 128 0).set 0 1).set 1 2,
                  cmds := (List.replicate 64 97 ++ (0 :: b.drop 65)).take (1 * 64) ++
                    (([98, 0] : List Nat).take ((cstr [98, 0]).length + 1) ++
                      ((List.replicate 64 97 ++ (0 :: b.drop 65)).drop (1 * 64)).drop
                        ((cstr [98, 0]).length + 1)),
                  ncmds := (1 + 1) % 2 ^ 32 }) :=
    mc_map_block_ok (defaultConfig .RGB)
      { cmdfuncs := (List.replicate 128 0).set 0 1,
        cmds := List.replicate 64 97 ++ (0 :: b.drop 65), ncmds := 1 } [98, 0] 2
      (show 1 < 128 by decide) (show 1 < ((List.replicate 128 0).set 0 1).length by simp)
      (by decide)
      (by
        show 1 * 64 + (cstr [98, 0]).length + 1
          ≤ (List.replicate 64 97 ++ (0 :: b.drop 65)).length
        simp only [List.length_append, List.length_replicate, List.length_cons,
          List.length_drop]
        omega)
  have e2 : (List.replicate 64 97 ++ (0 :: b.drop 65)).take (1 * 64) ++
      (([98, 0] : List Nat).take ((cstr [98, 0]).length + 1) ++
        ((List.replicate 64 97 ++ (0 :: b.drop 65)).drop (1 * 64)).drop
          ((cstr [98, 0]).length + 1))
      = List.replicate 64 97 ++ ([98, 0] ++ b.drop 66) := by
    rw [hlen2, Nat.one_mul,
      List.take_left' (show (List.replicate 64 97).length = 64 by decide),
      List.drop_left' (show (List.replicate 64 97).length = 64 by decide)]
    show _ ++ ([98, 0] ++ (b.drop 65).drop 1) = _
    rw [List.drop_drop]
  rw [e2] at h2
  show (match mc_map_block (defaultConfig .RGB)
      { cmdfuncs := List.replicate 128 0, cmds := b, ncmds := 0 } name64 1 with
    | .ok (r, reg1) => if r = 0 then mapAllBlock (defaultConfig .RGB) reg1 [([98, 0], 2)]
        else none
    | .error _ => none) = _
  rw [h1]
  show (match mc_map_block (defaultConfig .RGB)
      { cmdfuncs := (List.replicate 128 0).set 0 1,
        cmds := List.replicate 64 97 ++ (0 :: b.drop 65), ncmds := 1 } [98, 0] 2 with
    | .ok (r, reg1) => if r = 0 then mapAllBlock (defaultConfig .RGB) reg1 [] else none
    | .error _ => none) = _
  rw [h2]
  rfl

/-- With static arrays the block of the fresh console has
`MC_MAX_COMMANDS * MC_MAX_COMMAND_LENGTH` bytes. -/
theorem create_block_length (cfg : Config) (hfixed : cfg.dynamicArrays = false) :
    (toBlock (mc_create cfg).2).cmds.length
      = cfg.MC_MAX_COMMANDS * cfg.MC_MAX_COMMAND_LENGTH := by
  simp [toBlock, mc_create, hfixed, List.length_flatten]

/-- Dropping whole rows from the block of a list of rows of one length. -/
theorem flatten_drop_rows (len : Nat) :
    ∀ (rows : List (List Nat)) (i : Nat), (∀ row, row ∈ rows → row.length = len) →
      rows.flatten.drop (i * len) = (rows.drop i).flatten := by
  intro rows
  induction rows with
  | nil => intro i _; simp
  | cons row rest ih =>
    intro i h
    cases i with
    | zero => simp
    | succ j =>
      have hrow : row.length = len := h row (List.mem_cons_self _ _)
      have hmul : (j + 1) * len = row.length + j * len := by rw [hrow, Nat.succ_mul]; omega
      rw [List.flatten_cons, hmul, List.drop_append, List.drop_succ_cons]
      exact ih j (fun r hr => h r (List.mem_cons_of_mem _ hr))

/-- Taking whole rows from the block of a list of rows of one length. -/
theorem flatten_take_rows (len : Nat) :
    ∀ (rows : List (List Nat)) (i : Nat), (∀ row, row ∈ rows → row.length = len) →
      i ≤ rows.length → rows.flatten.take (i * len) = (rows.take i).flatten := by
  intro rows
  induction rows with
  | nil => intro i _ _; simp
  | cons row rest ih =>
    intro i h hi
    cases i with
    | zero => simp
    | succ j =>
      have hrow : row.length = len := h row (List.mem_cons_self _ _)
      have hmul : (j + 1) * len = row.length + j * len := by rw [hrow, Nat.succ_mul]; omega
      rw [List.flatten_cons, hmul, List.take_append, List.take_succ_cons, List.flatten_cons,
        ih j (fun r hr => h r (List.mem_cons_of_mem _ hr))
          (by simp only [List.length_cons] at hi; omega)]

/-- The block of a list of rows of one length has `rows * len` bytes. -/
theorem flatten_length_rows (len : Nat) :
    ∀ (rows : List (List Nat)), (∀ row, row ∈ rows → row.length = len) →
      rows.flatten.length = rows.length * len := by
  intro rows
  induction rows with
  | nil => intro _; simp
  | cons row rest ih =>
    intro h
    rw [List.flatten_cons, List.length_append, h row (List.mem_cons_self _ _),
      ih (fun r hr => h r (List.mem_cons_of_mem _ hr)), List.length_cons, Nat.succ_mul]
    omega

/-- The C string at the start of a slot that holds a NUL does not depend on the bytes
after the slot. -/
theorem cstr_append_of_mem (s r : List Nat) (h : 0 ∈ s) : cstr (s ++ r) = cstr s := by
  have hs := cstr_split s h
  have hz := cstr_no_zero s
  generalize cstr s = c at hs hz ⊢
  generalize s.drop (c.length + 1) = d at hs
  subst hs
  rw [List.append_assoc, List.cons_append]
  exact cstr_append_zero c (d ++ r) hz

/-- Where `mc_map` returns in the reading of the name slots as separate objects, it
returns the same code and leaves the same bytes in the reading of the array as one
block. -/
theorem mc_map_block_agrees (cfg : Config) (con con1 : mc_console) (cmd : List Nat)
    (func : Nat) (r : Int) (hfixed : cfg.dynamicArrays = false)
    (hshape : RegistryShape cfg con) (hrun : mc_map cfg con cmd func = .ok (r, con1)) :
    mc_map_block cfg (toBlock con) cmd func = .ok (r, toBlock con1) := by
  obtain ⟨hf, hc, hslots, hn⟩ := hshape
  rcases mc_map_fixed_inv cfg con con1 cmd func r hfixed hrun with h | h
  · obtain ⟨hfull, hass, hr, hcon⟩ := h
    subst hr
    rw [hcon]
    unfold mc_map_block
    rw [if_neg (by simp [hass]),
      if_pos (show (toBlock con).ncmds = cfg.MC_MAX_COMMANDS from hfull)]
    rfl
  · obtain ⟨hne, hr, hlt, slot, hslot, hnul, hfit, hcon1⟩ := h
    subst hr
    have hlt1 : con.ncmds < con.cmds.length := by omega
    have hslotlen : slot.length = cfg.MC_MAX_COMMAND_LENGTH :=
      hslots slot (List.getElem?_mem hslot)
    have hget : con.cmds[con.ncmds] = slot := by
      have := List.getElem?_eq_getElem hlt1
      rw [hslot] at this
      exact (Option.some.inj this).symm
    have hflen := flatten_length_rows cfg.MC_MAX_COMMAND_LENGTH con.cmds hslots
    rw [hc] at hflen
    have hdrop : con.cmds.flatten.drop (con.ncmds * cfg.MC_MAX_COMMAND_LENGTH)
        = slot ++ (con.cmds.drop (con.ncmds + 1)).flatten := by
      rw [flatten_drop_rows cfg.MC_MAX_COMMAND_LENGTH con.cmds con.ncmds hslots,
        List.drop_eq_getElem_cons hlt1, List.flatten_cons, hget]
    have htake := flatten_take_rows cfg.MC_MAX_COMMAND_LENGTH con.cmds con.ncmds hslots
      (by omega)
    have hmul : (con.ncmds + 1) * cfg.MC_MAX_COMMAND_LENGTH
        ≤ cfg.MC_MAX_COMMANDS * cfg.MC_MAX_COMMAND_LENGTH :=
      Nat.mul_le_mul_right _ (by omega)
    rw [Nat.succ_mul] at hmul
    rw [mc_map_block_ok cfg (toBlock con) cmd func (show con.ncmds < cfg.MC_MAX_COMMANDS by omega)
      hlt hnul (by
        show con.ncmds * cfg.MC_MAX_COMMAND_LENGTH + (cstr cmd).length + 1
          ≤ con.cmds.flatten.length
        omega)]
    subst hcon1
    simp only [toBlock]
    have hset : con.cmds.set con.ncmds
        (cmd.take ((cstr cmd).length + 1) ++ slot.drop ((cstr cmd).length + 1))
        = con.cmds.take con.ncmds ++
          (cmd.take ((cstr cmd).length + 1) ++ slot.drop ((cstr cmd).length + 1)) ::
            con.cmds.drop (con.ncmds + 1) := by
      rw [List.set_eq_take_append_cons_drop, if_pos hlt1]
    rw [hdrop, htake, List.drop_append_of_le_length hfit, hset, List.flatten_append,
      List.flatten_cons, List.append_assoc]

/-- A sequence of registrations that returns in the reading of the name slots as
separate objects returns the same in the reading of the array as one block; the static
layout is kept and every name slot still holds a NUL. -/
theorem mapAll_block_agrees (cfg : Config) (hfixed : cfg.dynamicArrays = false)
    (hcap : cfg.MC_MAX_COMMANDS < 2 ^ 32) :
    ∀ (regs : List (List Nat × Nat)) (con con1 : mc_console), RegistryShape cfg con →
      (∀ slot, slot ∈ con.cmds → 0 ∈ slot) →
      mapAll cfg con regs = some con1 →
      mapAllBlock cfg (toBlock con) regs = some (toBlock con1) ∧ RegistryShape cfg con1 ∧
        (∀ slot, slot ∈ con1.cmds → 0 ∈ slot) := by
  intro regs
  induction regs with
  | nil =>
    intro con con1 hshape hnul h
    simp only [mapAll, Option.some.injEq] at h
    subst h
    exact ⟨rfl, hshape, hnul⟩
  | cons reg rest ih =>
    intro con con1 hshape hnul h
    obtain ⟨cmd, func⟩ := reg
    simp only [mapAll] at h
    cases hm : mc_map cfg con cmd func with
    | error e => simp [hm] at h
    | ok res =>
      obtain ⟨r, con2⟩ := res
      simp only [hm] at h
      by_cases hr : r = 0
      · subst hr
        simp only [if_true] at h
        obtain ⟨hshape2, _, _⟩ := mc_map_step cfg con con2 cmd func hfixed hcap hshape hm
        have hnul2 : ∀ slot, slot ∈ con2.cmds → 0 ∈ slot := by
          rcases mc_map_fixed_inv cfg con con2 cmd func 0 hfixed hm with h1 | h1
          · have := h1.2.2.1
            omega
          · obtain ⟨_, _, _, slot, _, hcn, hfit, hcon2⟩ := h1
            intro sl hsl
            rw [hcon2] at hsl
            rcases List.mem_or_eq_of_mem_set hsl with h2 | h2
            · exact hnul sl h2
            · rw [h2, take_cstr_succ cmd hcn]
              simp
        obtain ⟨hb, hs, hz⟩ := ih con2 con1 hshape2 hnul2 h
        refine ⟨?_, hs, hz⟩
        simp only [mapAllBlock, mc_map_block_agrees cfg con con2 cmd func 0 hfixed hshape hm,
          if_true]
        exact hb
      · simp [hr] at h

/-- On a registry of the static layout whose name slots all hold a NUL, the entries
read from the block are the entries read from the slots. -/
theorem blockEntries_toBlock (cfg : Config) (con : mc_console)
    (hshape : RegistryShape cfg con) (hnul : ∀ slot, slot ∈ con.cmds → 0 ∈ slot) :
    blockEntries cfg (toBlock con) = entries con := by
  obtain ⟨hf, hc, hslots, hn⟩ := hshape
  unfold blockEntries entries
  show List.map _ (List.range con.ncmds) = _
  apply List.map_congr_left
  intro i hi
  have hi1 : i < con.cmds.length := by
    have := List.mem_range.1 hi
    omega
  show (cstr (con.cmds.flatten.drop (i * cfg.MC_MAX_COMMAND_LENGTH)), con.cmdfuncs.getD i 0)
    = (cstr (con.cmds.getD i []), con.cmdfuncs.getD i 0)
  have hg : con.cmds.getD i [] = con.cmds[i] := by
    rw [List.getD_eq_getElem?_getD, List.getElem?_eq_getElem hi1, Option.getD_some]
  rw [flatten_drop_rows _ con.cmds i hslots, List.drop_eq_getElem_cons hi1, List.flatten_cons,
    cstr_append_of_mem _ _ (hnul _ (List.getElem_mem hi1)), hg]

/-- What is read back after the two registrations of the failing input, whatever the
bytes after the second name. -/
theorem block_two_names_read (t : List Nat) :
    (blockEntries (defaultConfig .RGB)
        { cmdfuncs := ((List.replicate 128 0).set 0 1).set 1 2,
          cmds := List.replicate 64 97 ++ ([98, 0] ++ t), ncmds := 2 },
      blockLookup (defaultConfig .RGB)
        { cmdfuncs := ((List.replicate 128 0).set 0 1).set 1 2,
          cmds := List.replicate 64 97 ++ ([98, 0] ++ t), ncmds := 2 } (cstr name64))
      = ([(List.replicate 64 97 ++ [98], 1), ([98], 2)], none) := by
  rfl

/-- With static arrays, a sequence of registrations that fits the registry, of names
that are shorter than `MC_MAX_COMMAND_LENGTH`, returns 0 at every call in both readings
of the name slots, and the entries and the first-match lookup read back the registered
pairs in insertion order. -/
theorem registrations_of_short_names (cfg : Config) (regs : List (List Nat × Nat))
    (hfixed : cfg.dynamicArrays = false) (hcap : cfg.MC_MAX_COMMANDS < 2 ^ 32)
    (hroom : regs.length ≤ cfg.MC_MAX_COMMANDS)
    (hnames : ∀ r, r ∈ regs → 0 ∈ r.1 ∧ (cstr r.1).length < cfg.MC_MAX_COMMAND_LENGTH) :
    ∃ con, mapAll cfg (mc_create cfg).2 regs = some con ∧
      mapAllBlock cfg (toBlock (mc_create cfg).2) regs = some (toBlock con) ∧
      entries con = regs.map (fun r => (cstr r.1, r.2)) ∧
      blockEntries cfg (toBlock con) = regs.map (fun r => (cstr r.1, r.2)) ∧
      (∀ name, lookup con name =
        (regs.find? (fun r => cstr r.1 == name)).map (fun r => r.2)) ∧
      (∀ name, blockLookup cfg (toBlock con) name =
        (regs.find? (fun r => cstr r.1 == name)).map (fun r => r.2)) := by
  obtain ⟨hshape, h0⟩ := mc_create_shape cfg hfixed
  obtain ⟨con, hrun⟩ := mapAll_returns cfg hfixed hcap regs (mc_create cfg).2 hshape
    (by omega) hnames
  obtain ⟨hent, hlook⟩ := registry_keeps_insertion_order cfg regs con hcap hrun
  have hblock : mapAllBlock cfg (toBlock (mc_create cfg).2) regs = some (toBlock con) ∧
      blockEntries cfg (toBlock con) = entries con := by
    cases regs with
    | nil =>
      simp only [mapAll, Option.some.injEq] at hrun
      subst hrun
      refine ⟨rfl, ?_⟩
      simp [blockEntries, entries, toBlock, h0]
    | cons reg rest =>
      have hpos : 0 < cfg.MC_MAX_COMMAND_LENGTH := by
        have := (hnames reg (List.mem_cons_self _ _)).2
        omega
      have hnul : ∀ slot, slot ∈ (mc_create cfg).2.cmds → 0 ∈ slot := by
        intro slot hslot
        simp only [mc_create, hfixed, Bool.false_eq_true, if_false] at hslot
        rw [List.eq_of_mem_replicate hslot]
        exact List.mem_replicate.2 ⟨by omega, rfl⟩
      obtain ⟨hb, hs, hz⟩ :=
        mapAll_block_agrees cfg hfixed hcap _ (mc_create cfg).2 con hshape hnul hrun
      exact ⟨hb, blockEntries_toBlock cfg con hs hz⟩
  refine ⟨con, hrun, hblock.1, hent, hblock.2.trans hent, hlook, ?_⟩
  intro name
  unfold blockLookup
  rw [hblock.2.trans hent, List.find?_map, Option.map_map]
  rfl

set_option maxRecDepth 20000 in
/-- C8 (the code at the failing input, and what holds below it): in the default build
(`MC_MAX_COMMAND_LENGTH = 64`) registering a name of 64 characters with handler 1 and
then `"b"` with handler 2 on the fresh console returns 0 both times when the array
`cmds` is read as the block of bytes it occupies: the NUL of the first name is written
to the first byte of row 1 and the second name overwrites it, so the entries read back
are `(64 × 'a' ++ "b", 1)` and `("b", 2)` and the first-match scan for the registered
name of 64 characters finds nothing; with the name slots read as separate objects the
first call is the write past its slot of C7 and the sequence does not return. With
static arrays, for every sequence of at most `MC_MAX_COMMANDS` registrations of names
shorter than `MC_MAX_COMMAND_LENGTH`, every call returns 0 in both readings, the entries
read back in index order are the registered pairs in insertion order, duplicates
included, and the first-match lookup returns the handler of the earliest registration
of the name; after `("foo", 1)` then `("foo", 2)` the lookup of `"foo"` finds 1. -/
theorem registry_order_lost_after_name_of_maximum_length :
    ((cstr name64 = List.replicate 64 97 ∧
      (cstr name64).length ≤ (defaultConfig .RGB).MC_MAX_COMMAND_LENGTH ∧
      (mapAllBlock (defaultConfig .RGB) (toBlock (mc_create (defaultConfig .RGB)).2)
          [(name64, 1), ([98, 0], 2)]).map
        (fun reg => (blockEntries (defaultConfig .RGB) reg,
          blockLookup (defaultConfig .RGB) reg (cstr name64)))
        = some ([(List.replicate 64 97 ++ [98], 1), ([98], 2)], none) ∧
      mapAll (defaultConfig .RGB) (mc_create (defaultConfig .RGB)).2
          [(name64, 1), ([98, 0], 2)] = none)) ∧
    (∀ (cfg : Config) (regs : List (List Nat × Nat)),
      cfg.dynamicArrays = false → cfg.MC_MAX_COMMANDS < 2 ^ 32 →
      regs.length ≤ cfg.MC_MAX_COMMANDS →
      (∀ r, r ∈ regs → 0 ∈ r.1 ∧ (cstr r.1).length < cfg.MC_MAX_COMMAND_LENGTH) →
      ∃ con, mapAll cfg (mc_create cfg).2 regs = some con ∧
        mapAllBlock cfg (toBlock (mc_create cfg).2) regs = some (toBlock con) ∧
        entries con = regs.map (fun r => (cstr r.1, r.2)) ∧
        blockEntries cfg (toBlock con) = regs.map (fun r => (cstr r.1, r.2)) ∧
        (∀ name, lookup con name =
          (regs.find? (fun r => cstr r.1 == name)).map (fun r => r.2)) ∧
        (∀ name, blockLookup cfg (toBlock con) name =
          (regs.find? (fun r => cstr r.1 == name)).map (fun r => r.2))) ∧
    (mapAll smallConfig (mc_create smallConfig).2
        [([102, 111, 111, 0], 1), ([102, 111, 111, 0], 2)] = some fooTwice ∧
      entries fooTwice = [([102, 111, 111], 1), ([102, 111, 111], 2)] ∧
      lookup fooTwice [102, 111, 111] = some 1 ∧
      blockLookup smallConfig (toBlock fooTwice) [102, 111, 111] = some 1) := by
  refine ⟨⟨by decide, by decide, ?_, by decide⟩, ?_, by decide, by decide, by decide, by decide⟩
  · have hb : toBlock (mc_create (defaultConfig .RGB)).2
        = { cmdfuncs := List.replicate 128 0,
            cmds := (List.replicate 128 (List.replicate 64 0)).flatten, ncmds := 0 } := rfl
    have hl : (List.replicate 128 (List.replicate 64 0)).flatten.length = 128 * 64 :=
      create_block_length (defaultConfig .RGB) rfl
    rw [hb, block_two_names _ (by omega)]
    exact congrArg some (block_two_names_read _)
  · intro cfg regs hfixed hcap hroom hnames
    exact registrations_of_short_names cfg regs hfixed hcap hroom hnames

end Micronsole
